import Mathlib

/-!
# Verification of the mAP evaluation core of `src/infer.py`

Shallow embedding of the evaluation engine of `src/infer.py`
(`get_iou`, lines 16-33, and `compute_map`, lines 36-149).

Modelling conventions:
* Python floats are modelled as exact rationals (`ℚ`); the float constants
  `1E-6` and `np.finfo(np.float32).eps` are modelled by the exact rationals
  `1/1000000` and `2⁻²³`.  The 11 interpolation points produced by
  `np.arange(0, 1 + 1E-3, 0.1)` are modelled as `k/10`, `k = 0..10`.
* Class labels (Python dict keys, strings in the source) are modelled as
  natural numbers; `sorted(gt_labels)` uses the order on `ℕ`.
* A Python dict column `class → list` of one image is modelled as an
  association list with distinct keys; `label in im_dets` is `lookup?` being
  `some`, `im_dets[label]` on a missing key is a `KeyError`.
* Fallible operations (KeyError, IndexError, ValueError, ZeroDivisionError)
  are modelled in the `Except PyErr` monad; Python list indexing with its
  negative-wraparound semantics is `pyIdx`.
* `sorted(cls_dets, key=lambda k: -k[1][-1])` is a stable sort by descending
  score.  It is modelled by `List.insertionSort` with the relation
  "may precede" = `score of the right element ≤ score of the left element`,
  which is also stable, and a stable sort under a total preorder is unique.
-/

namespace Infer

/-- An axis-aligned box `[x1, y1, x2, y2]` (top-left / bottom-right corners).
No ordering invariant is imposed on the coordinates. -/
structure Box where
  x1 : ℚ
  y1 : ℚ
  x2 : ℚ
  y2 : ℚ
deriving DecidableEq, Repr

/-- A detection `[x1, y1, x2, y2, score]`: a box plus a confidence score. -/
structure Det where
  box : Box
  score : ℚ
deriving DecidableEq, Repr

/-- The constant `1E-6` added to the union area in `get_iou` (line 31). -/
def epsUnion : ℚ := 1 / 1000000

/-- `np.finfo(np.float32).eps` (line 113), i.e. `2⁻²³`. -/
def epsF32 : ℚ := 1 / 2 ^ 23

/-- `get_iou` (lines 16-33): intersection-over-union of two boxes, with the
degenerate-intersection early return and the `1E-6`-padded union. -/
def get_iou (det gt : Box) : ℚ :=
  let x_left := max det.x1 gt.x1
  let y_top := max det.y1 gt.y1
  let x_right := min det.x2 gt.x2
  let y_bottom := min det.y2 gt.y2
  if x_right < x_left ∨ y_bottom < y_top then 0
  else
    let area_intersection := (x_right - x_left) * (y_bottom - y_top)
    let det_area := (det.x2 - det.x1) * (det.y2 - det.y1)
    let gt_area := (gt.x2 - gt.x1) * (gt.y2 - gt.y1)
    let area_union := det_area + gt_area - area_intersection + epsUnion
    area_intersection / area_union

/-- One image's ground-truth dict: class label ↦ list of boxes. -/
abbrev GtImg := List (ℕ × List Box)

/-- One image's detection dict: class label ↦ list of detections. -/
abbrev DetImg := List (ℕ × List Det)

/-- Python dict lookup on the association-list model (`d[k]` / `k in d`). -/
def lookup? {α : Type} (im : List (ℕ × α)) (l : ℕ) : Option α :=
  (im.find? (fun p => p.1 == l)).map Prod.snd

/-- The exceptions `compute_map` can raise. -/
inductive PyErr where
  | keyError (l : ℕ)
  | valueError
  | zeroDivisionError
  | indexError
deriving DecidableEq, Repr

/-- Python list indexing `xs[i]` with negative-index wraparound; out of
range is an `IndexError`. -/
def pyIdx {α : Type} (xs : List α) (i : Int) : Except PyErr α :=
  let j := if i < 0 then i + xs.length else i
  if h : 0 ≤ j ∧ j.toNat < xs.length then Except.ok (xs.get ⟨j.toNat, h.2⟩)
  else Except.error PyErr.indexError

/-- Python list assignment `xs[i] = b` with negative-index wraparound
(only reached in the source after a successful read at the same index). -/
def pySet (xs : List Bool) (i : Int) (b : Bool) : List Bool :=
  let j := if i < 0 then i + xs.length else i
  xs.set j.toNat b

/-- Lines 64-67: the flattened list of `(im_idx, detection)` pairs of one
class, in image order then per-image input order. -/
def clsDets (detB : List DetImg) (l : ℕ) : List (ℕ × Det) :=
  (detB.enum.map (fun p => match lookup? p.2 l with
      | some ds => ds.map (fun d => (p.1, d))
      | none => [])).flatten

/-- "`a` may be placed before `b`" for the descending-score stable sort of
line 80 (`sorted(cls_dets, key=lambda k: -k[1][-1])`). -/
def detBefore (a b : ℕ × Det) : Prop := b.2.score ≤ a.2.score

instance : DecidableRel detBefore := fun _ _ => inferInstanceAs (Decidable (_ ≤ _))

/-- Line 80: the class detections sorted by descending score, stably. -/
def sortedClsDets (detB : List DetImg) (l : ℕ) : List (ℕ × Det) :=
  List.insertionSort detBefore (clsDets detB l)

/-- Line 83: the per-image `gt_matched` tables, all-`False`; a `KeyError`
at the first image whose ground-truth dict lacks the class key. -/
def initMatched (l : ℕ) : List GtImg → Except PyErr (List (List Bool))
  | [] => Except.ok []
  | im :: gtB => match lookup? im l with
    | some gts => do
        let rest ← initMatched l gtB
        Except.ok (gts.map (fun _ => false) :: rest)
    | none => Except.error (PyErr.keyError l)

/-- Line 85: `num_gts`, the total ground-truth count of the class; a
`KeyError` at the first image whose ground-truth dict lacks the class key. -/
def numGtsE (l : ℕ) : List GtImg → Except PyErr ℕ
  | [] => Except.ok 0
  | im :: gtB => match lookup? im l with
    | some gts => do
        let rest ← numGtsE l gtB
        Except.ok (gts.length + rest)
    | none => Except.error (PyErr.keyError l)

/-- Lines 93-101: scan of the image's ground-truth boxes keeping the best
IoU and its index, starting from `(-1, -1)` and updating on strict
improvement (`gt_box_iou > max_iou_found`). -/
def bestGtAux (d : Box) : ℕ → ℚ × Int → List Box → ℚ × Int
  | _, best, [] => best
  | i, best, g :: gs =>
      if best.1 < get_iou d g then bestGtAux d (i + 1) (get_iou d g, (i : Int)) gs
      else bestGtAux d (i + 1) best gs

/-- Lines 90-108, one loop iteration: classify one detection of image
`imIdx` and update the match table. -/
def matchStep (gtB : List GtImg) (l : ℕ) (t : ℚ) (matched : List (List Bool))
    (imIdx : ℕ) (d : Det) : Except PyErr (Bool × List (List Bool)) := do
  let im ← match gtB.get? imIdx with
    | some im => Except.ok im
    | none => Except.error PyErr.indexError
  let im_gts ← match lookup? im l with
    | some gts => Except.ok gts
    | none => Except.error (PyErr.keyError l)
  let best := bestGtAux d.box 0 (-1, -1) im_gts
  if best.1 < t then Except.ok (false, matched)
  else do
    let row ← match matched.get? imIdx with
      | some r => Except.ok r
      | none => Except.error PyErr.indexError
    let b ← pyIdx row best.2
    if b then Except.ok (false, matched)
    else Except.ok (true, matched.set imIdx (pySet row best.2 true))

/-- Lines 90-108: the whole matching loop, returning the TP/FP flag of every
detection in processing order (`true` = TP; the source sets exactly one of
`tp[det_idx]`, `fp[det_idx]` to 1 per iteration). -/
def matchFold (gtB : List GtImg) (l : ℕ) (t : ℚ) :
    List (ℕ × Det) → List (List Bool) → Except PyErr (List Bool)
  | [], _ => Except.ok []
  | (imIdx, d) :: rest, matched => do
      let fm ← matchStep gtB l t matched imIdx d
      let flags ← matchFold gtB l t rest fm.2
      Except.ok (fm.1 :: flags)

/-- Lines 80-108 for one class: sort the detections, build the match table,
run the matching loop. -/
def classFlags (detB : List DetImg) (gtB : List GtImg) (l : ℕ) (t : ℚ) :
    Except PyErr (List Bool) := do
  let matched0 ← initMatched l gtB
  matchFold gtB l t (sortedClsDets detB l) matched0

/-- `np.cumsum` with a running accumulator. -/
def cumsumFrom (acc : ℚ) : List ℚ → List ℚ
  | [] => []
  | x :: xs => (acc + x) :: cumsumFrom (acc + x) xs

/-- `np.cumsum` (lines 110-111). -/
def cumsum (xs : List ℚ) : List ℚ := cumsumFrom 0 xs

/-- Lines 124-125: the precision envelope; entry `i` becomes the maximum of
the suffix starting at `i` (the source's backward in-place maximum scan). -/
def envelope : List ℚ → List ℚ
  | [] => []
  | p :: ps => match envelope ps with
    | [] => [p]
    | q :: qs => max p q :: q :: qs

/-- Lines 127-129: `Σ (recall[k+1] - recall[k]) * precision[k+1]` over
consecutive positions.  The source sums only positions where the recall
changes; the terms it drops are exactly `0` (`r₂ - r₁ = 0`), so the value
is the same. -/
def adjSum : List ℚ → List ℚ → ℚ
  | r1 :: r2 :: rs, _ :: p2 :: ps => (r2 - r1) * p2 + adjSum (r2 :: rs) (p2 :: ps)
  | _, _ => 0

/-- Lines 117-129: the `area` AP of one class from its recall and precision
sequences (sentinel points, envelope, rectangle sum). -/
def apArea (recalls precisions : List ℚ) : ℚ :=
  let r := 0 :: recalls ++ [1]
  let p := 0 :: precisions ++ [0]
  adjSum r (envelope p)

/-- Lines 134-137 for one interpolation point: the maximum precision over
curve points with recall ≥ the point, `0` if there are none. -/
def maxPrecAt (recalls precisions : List ℚ) (r : ℚ) : ℚ :=
  match (List.zip recalls precisions).filterMap
      (fun rp => if r ≤ rp.1 then some rp.2 else none) with
  | [] => 0
  | p :: ps => ps.foldl max p

/-- Lines 130-139: the legacy 11-point interpolated AP. -/
def apInterp (recalls precisions : List ℚ) : ℚ :=
  (((List.range 11).map (fun k => maxPrecAt recalls precisions ((k : ℚ) / 10))).sum) / 11

/-- Lines 62-141 for one class: TP/FP flags, cumulative sums, recall and
precision sequences, then the AP under the requested method (`ValueError`
on an unknown method).  Returns the AP together with `num_gts`.
`numGtsE` is evaluated after the matching loop here; it fails exactly when
`initMatched` (the first action of `classFlags`) fails and with the same
error, so the error behaviour is that of the source order. -/
def classEval (detB : List DetImg) (gtB : List GtImg) (l : ℕ) (t : ℚ)
    (method : String) : Except PyErr (ℚ × ℕ) := do
  let flags ← classFlags detB gtB l t
  let n ← numGtsE l gtB
  let tpc := cumsum (flags.map (fun b => if b then (1 : ℚ) else 0))
  let fpc := cumsum (flags.map (fun b => if b then (0 : ℚ) else 1))
  let recalls := tpc.map (fun x => x / max (n : ℚ) epsF32)
  let precisions := List.zipWith (fun x y => x / max (x + y) epsF32) tpc fpc
  if method = "area" then Except.ok (apArea recalls precisions, n)
  else if method = "interp" then Except.ok (apInterp recalls precisions, n)
  else Except.error PyErr.valueError

/-- Line 57: the class universe, every key of every image's ground-truth
dict, first occurrences kept. -/
def allGtLabels (gtB : List GtImg) : List ℕ :=
  ((gtB.map (fun im => im.map Prod.fst)).flatten).dedup

/-- Line 58: the class universe sorted ascending. -/
def sortedLabels (gtB : List GtImg) : List ℕ :=
  List.insertionSort (· ≤ ·) (allGtLabels gtB)

/-- Lines 62-146: the per-class loop.  Accumulates `aps` (classes with
ground truth) and `all_aps` (every class; `none` models `np.nan`). -/
def processLabels (detB : List DetImg) (gtB : List GtImg) (t : ℚ)
    (method : String) : List ℕ → Except PyErr (List ℚ × List (ℕ × Option ℚ))
  | [] => Except.ok ([], [])
  | l :: ls => do
      let an ← classEval detB gtB l t method
      let rest ← processLabels detB gtB t method ls
      if 0 < an.2 then Except.ok (an.1 :: rest.1, (l, some an.1) :: rest.2)
      else Except.ok (rest.1, (l, none) :: rest.2)

/-- `compute_map` (lines 36-149).  Returns `(mean_ap, all_aps)`; the final
`sum(aps) / len(aps)` raises `ZeroDivisionError` when `aps` is empty. -/
def compute_map (detB : List DetImg) (gtB : List GtImg) (t : ℚ)
    (method : String) : Except PyErr (ℚ × List (ℕ × Option ℚ)) := do
  let r ← processLabels detB gtB t method (sortedLabels gtB)
  if r.1.length = 0 then Except.error PyErr.zeroDivisionError
  else Except.ok (r.1.sum / (r.1.length : ℚ), r.2)

/-! ## Specification-side definitions

The following definitions restate parts of the specification in its own
words; they are compared with the source-embedded definitions above. -/

/-- Specification reading of the inner selection (spec §4.2): among *all*
ground-truth boxes of the image, matched or not, "select the one with
maximum IoU against this detection"; `none` when the image has no
ground-truth box of the class.  Ties select the earliest box. -/
def bestGtSpec (d : Box) (gts : List Box) : Option (ℚ × ℕ) :=
  let ious := gts.map (get_iou d)
  match ious.max? with
  | none => none
  | some mx => some (mx, ious.indexOf mx)

/-- Specification reading of the per-detection rule: "If that maximum IoU is
below the threshold, OR the selected ground-truth box is already marked
matched, the detection is FP. Otherwise it is TP and that ground-truth box
is marked matched" — with no reassignment to a next-best box.  The
image/key/table accesses are the same context as `matchStep`. -/
def matchStepSpec (gtB : List GtImg) (l : ℕ) (t : ℚ) (matched : List (List Bool))
    (imIdx : ℕ) (d : Det) : Except PyErr (Bool × List (List Bool)) := do
  let im ← match gtB.get? imIdx with
    | some im => Except.ok im
    | none => Except.error PyErr.indexError
  let im_gts ← match lookup? im l with
    | some gts => Except.ok gts
    | none => Except.error (PyErr.keyError l)
  match bestGtSpec d.box im_gts with
  | none => Except.ok (false, matched)
  | some ms => do
      let row ← match matched.get? imIdx with
        | some r => Except.ok r
        | none => Except.error PyErr.indexError
      let b ← pyIdx row (ms.2 : Int)
      if t ≤ ms.1 ∧ b = false then
        Except.ok (true, matched.set imIdx (pySet row (ms.2 : Int) true))
      else Except.ok (false, matched)

/-- The specification matching loop: `matchStepSpec` over each detection in
descending-score order. -/
def matchFoldSpec (gtB : List GtImg) (l : ℕ) (t : ℚ) :
    List (ℕ × Det) → List (List Bool) → Except PyErr (List Bool)
  | [], _ => Except.ok []
  | (imIdx, d) :: rest, matched => do
      let fm ← matchStepSpec gtB l t matched imIdx d
      let flags ← matchFoldSpec gtB l t rest fm.2
      Except.ok (fm.1 :: flags)

/-- The specification per-class matcher: fresh all-false match table, then
`matchFoldSpec` over the detections sorted by descending score. -/
def classFlagsSpec (detB : List DetImg) (gtB : List GtImg) (l : ℕ) (t : ℚ) :
    Except PyErr (List Bool) := do
  let matched0 ← initMatched l gtB
  matchFoldSpec gtB l t (sortedClsDets detB l) matched0

/-- The total ground-truth count of a class over all images (a missing key
counts as no boxes); agrees with `numGtsE` whenever the latter succeeds. -/
def numGtsTotal (gtB : List GtImg) (l : ℕ) : ℕ :=
  (gtB.map (fun im => ((lookup? im l).getD []).length)).sum

/-- The AP value of one class, read off the embedded evaluation (`0` as a
dummy in the error case, which never occurs where this is used). -/
def classAPD (detB : List DetImg) (gtB : List GtImg) (t : ℚ) (method : String)
    (l : ℕ) : ℚ :=
  ((classEval detB gtB l t method).toOption.map Prod.fst).getD 0

/-- The contribution of one class to the `aps` list of `compute_map`:
its AP if it has ground truth, nothing otherwise (or on error). -/
def apEntry (detB : List DetImg) (gtB : List GtImg) (t : ℚ) (method : String)
    (l : ℕ) : Option ℚ :=
  match classEval detB gtB l t method with
  | Except.ok an => if 0 < an.2 then some an.1 else none
  | Except.error _ => none

/-- The classes that contribute to the mean: members of the sorted class
universe with positive total ground-truth count. -/
def meanClasses (gtB : List GtImg) : List ℕ :=
  (sortedLabels gtB).filter (fun c => 0 < numGtsTotal gtB c)

/-- Adding a class as a key with an empty box list to every image's
ground-truth dict. -/
def addEmptyClass (gtB : List GtImg) (lnew : ℕ) : List GtImg :=
  gtB.map (fun im => im ++ [(lnew, [])])

/-- Well-shapedness of a match table for `gtB` and class `l`: one row per
image, each row as long as that image's ground-truth list for the class. -/
def ShapeOk (gtB : List GtImg) (l : ℕ) (matched : List (List Bool)) : Prop :=
  matched.length = gtB.length ∧
  ∀ (i : ℕ) (im : GtImg) (gts : List Box) (row : List Bool),
    gtB[i]? = some im → lookup? im l = some gts →
    matched[i]? = some row → row.length = gts.length

end Infer

namespace Infer

/-! ### Basic facts about `get_iou` -/

theorem get_iou_nonneg (det gt : Box) : 0 ≤ get_iou det gt := by
  simp only [get_iou]
  split
  · exact le_refl 0
  · rename_i h
    push_neg at h
    obtain ⟨hx, hy⟩ := h
    have h1 : (0 : ℚ) ≤ min det.x2 gt.x2 - max det.x1 gt.x1 := by linarith
    have h2 : (0 : ℚ) ≤ min det.y2 gt.y2 - max det.y1 gt.y1 := by linarith
    have hdx : det.x1 ≤ det.x2 :=
      le_trans (le_trans (le_max_left _ _) hx) (min_le_left _ _)
    have hdy : det.y1 ≤ det.y2 :=
      le_trans (le_trans (le_max_left _ _) hy) (min_le_left _ _)
    have hgx : gt.x1 ≤ gt.x2 :=
      le_trans (le_trans (le_max_right _ _) hx) (min_le_right _ _)
    have hgy : gt.y1 ≤ gt.y2 :=
      le_trans (le_trans (le_max_right _ _) hy) (min_le_right _ _)
    have hinter : (min det.x2 gt.x2 - max det.x1 gt.x1) * (min det.y2 gt.y2 - max det.y1 gt.y1)
        ≤ (det.x2 - det.x1) * (det.y2 - det.y1) := by
      apply mul_le_mul
      · exact sub_le_sub (min_le_left _ _) (le_max_left _ _)
      · exact sub_le_sub (min_le_left _ _) (le_max_left _ _)
      · exact h2
      · linarith
    have hgta : (0 : ℚ) ≤ (gt.x2 - gt.x1) * (gt.y2 - gt.y1) := by
      apply mul_nonneg <;> linarith
    have heps : (0 : ℚ) < epsUnion := by norm_num [epsUnion]
    exact div_nonneg (mul_nonneg h1 h2) (by linarith)

/-! ### Association-list lookups -/

theorem lookup?_cons {α : Type} (k : ℕ) (v : α) (im : List (ℕ × α)) (l : ℕ) :
    lookup? ((k, v) :: im) l = if k = l then some v else lookup? im l := by
  by_cases h : k = l <;> simp [lookup?, List.find?_cons, h]

theorem lookup?_append_fresh {α : Type} (im : List (ℕ × α)) (k l : ℕ) (v : α)
    (h : k ≠ l) : lookup? (im ++ [(k, v)]) l = lookup? im l := by
  simp only [lookup?, List.find?_append]
  have hb : (k == l) = false := by simp [h]
  have : List.find? (fun p => p.1 == l) [(k, v)] = none := by simp [List.find?, hb]
  rw [this, Option.or_none]

theorem lookup?_append_self {α : Type} (im : List (ℕ × α)) (l : ℕ) (v : α)
    (h : lookup? im l = none) : lookup? (im ++ [(l, v)]) l = some v := by
  have hf : List.find? (fun p => p.1 == l) im = none := by
    by_contra hne
    rcases Option.ne_none_iff_exists'.1 hne with ⟨p, hp⟩
    simp [lookup?, hp] at h
  simp [lookup?, List.find?_append, hf, List.find?]

theorem lookup?_eq_none_iff {α : Type} (im : List (ℕ × α)) (l : ℕ) :
    lookup? im l = none ↔ l ∉ im.map Prod.fst := by
  simp only [lookup?, Option.map_eq_none', List.find?_eq_none, List.mem_map]
  constructor
  · rintro h ⟨p, hp, rfl⟩
    exact h p hp (by simp)
  · intro h p hp hbeq
    exact h ⟨p, hp, by simpa using hbeq⟩

theorem lookup?_isSome_iff {α : Type} (im : List (ℕ × α)) (l : ℕ) :
    (lookup? im l).isSome = true ↔ l ∈ im.map Prod.fst := by
  rw [Option.isSome_iff_ne_none, ne_eq, lookup?_eq_none_iff, not_not]

/-! ### The best-IoU scan -/

instance : Std.Antisymm (fun (a b : ℚ) => a ≤ b) :=
  ⟨fun h1 h2 => le_antisymm h1 h2⟩

theorem ratMax?_eq_some_iff {xs : List ℚ} {a : ℚ} :
    xs.max? = some a ↔ a ∈ xs ∧ ∀ b ∈ xs, b ≤ a :=
  List.max?_eq_some_iff (fun _ => le_refl _) (fun _ _ => max_choice _ _)
    (fun _ _ _ => max_le_iff)

theorem bestGtAux_le (d : Box) :
    ∀ (gts : List Box) (i : ℕ) (b : ℚ) (bi : Int),
      (∀ g ∈ gts, get_iou d g ≤ b) → bestGtAux d i (b, bi) gts = (b, bi) := by
  intro gts
  induction gts with
  | nil => intro i b bi _; rfl
  | cons g gs ih =>
      intro i b bi h
      have hg : ¬ b < get_iou d g := not_lt.2 (h g (List.mem_cons_self g gs))
      simp only [bestGtAux, if_neg hg]
      exact ih (i + 1) b bi (fun x hx => h x (List.mem_cons_of_mem g hx))

theorem bestGtAux_max (d : Box) :
    ∀ (gts : List Box) (i : ℕ) (b : ℚ) (bi : Int) (M : ℚ),
      (gts.map (get_iou d)).max? = some M → b < M →
      bestGtAux d i (b, bi) gts = (M, (i : Int) + (List.indexOf M (gts.map (get_iou d)) : ℕ)) := by
  intro gts
  induction gts with
  | nil => intro i b bi M hM _; simp at hM
  | cons g gs ih =>
      intro i b bi M hM hbM
      obtain ⟨hmem, hub⟩ := ratMax?_eq_some_iff.1 hM
      by_cases hg : get_iou d g = M
      · have hb : b < get_iou d g := hg ▸ hbM
        simp only [bestGtAux, if_pos hb]
        have hrest : bestGtAux d (i + 1) (get_iou d g, (i : Int)) gs = (get_iou d g, (i : Int)) := by
          apply bestGtAux_le
          intro x hx
          rw [hg]
          exact hub _ (by simp [List.mem_map]; exact Or.inr ⟨x, hx, rfl⟩)
        rw [hrest]
        have hidx : List.indexOf M (get_iou d g :: gs.map (get_iou d)) = 0 := by
          simp [List.indexOf_cons, hg]
        rw [List.map_cons, hidx]
        simp [hg]
      · have hgM : get_iou d g < M :=
          lt_of_le_of_ne (hub _ (by simp)) hg
        have hmem' : M ∈ gs.map (get_iou d) := by
          rcases (List.mem_cons).1 hmem with h | h
          · exact absurd h.symm hg
          · exact h
        have hM' : (gs.map (get_iou d)).max? = some M :=
          ratMax?_eq_some_iff.2 ⟨hmem', fun x hx => hub _ (List.mem_cons_of_mem _ hx)⟩
        have hidx : List.indexOf M (get_iou d g :: gs.map (get_iou d)) =
            List.indexOf M (gs.map (get_iou d)) + 1 := by
          have hbeq : (get_iou d g == M) = false := by
            simp [hg]
          simp [List.indexOf_cons, hbeq]
        by_cases hb2 : b < get_iou d g
        · simp only [bestGtAux, if_pos hb2]
          rw [ih (i + 1) (get_iou d g) (i : Int) M hM' hgM, List.map_cons, hidx]
          simp only [Prod.mk.injEq]
          refine ⟨trivial, ?_⟩
          push_cast
          ring
        · simp only [bestGtAux, if_neg hb2]
          rw [ih (i + 1) b bi M hM' hbM, List.map_cons, hidx]
          simp only [Prod.mk.injEq]
          refine ⟨trivial, ?_⟩
          push_cast
          ring

theorem bestGt_eq_spec (d : Box) (gts : List Box) :
    bestGtAux d 0 (-1, -1) gts =
      (match bestGtSpec d gts with
        | none => ((-1 : ℚ), (-1 : Int))
        | some ms => (ms.1, (ms.2 : Int))) := by
  cases gts with
  | nil => rfl
  | cons g gs =>
      obtain ⟨M, hM⟩ : ∃ M, ((g :: gs).map (get_iou d)).max? = some M := by
        rw [List.map_cons, List.max?_cons]
        exact ⟨_, rfl⟩
      have hMnn : (0 : ℚ) ≤ M := by
        obtain ⟨hmem, _⟩ := ratMax?_eq_some_iff.1 hM
        rcases List.mem_map.1 hmem with ⟨x, _, rfl⟩
        exact get_iou_nonneg d x
      have h := bestGtAux_max d (g :: gs) 0 (-1) (-1) M hM (by linarith)
      rw [h]
      simp only [bestGtSpec]
      rw [hM]
      simp

/-! ### The match table: construction and shape -/

theorem initMatched_ok_iff (l : ℕ) :
    ∀ (gtB : List GtImg) (m : List (List Bool)),
      initMatched l gtB = Except.ok m ↔
        ((∀ im ∈ gtB, (lookup? im l).isSome = true) ∧
          m = gtB.map (fun im => ((lookup? im l).getD []).map (fun _ => false))) := by
  intro gtB
  induction gtB with
  | nil => intro m; simp [initMatched]
  | cons im gtB ih =>
      intro m
      cases hl : lookup? im l with
      | none =>
          simp only [initMatched, hl]
          constructor
          · intro h; exact Except.noConfusion h
          · rintro ⟨h1, _⟩
            have hsome := h1 im (List.mem_cons_self _ _)
            rw [hl] at hsome
            simp at hsome
      | some gts =>
          simp only [initMatched, hl, bind, Except.bind]
          cases hrest : initMatched l gtB with
          | error e =>
              constructor
              · intro h; exact Except.noConfusion h
              · rintro ⟨h1, _⟩
                have h2 := (ih _).2 ⟨fun x hx => h1 x (List.mem_cons_of_mem _ hx), rfl⟩
                rw [hrest] at h2
                exact Except.noConfusion h2
          | ok rest =>
              obtain ⟨hkeys, hrest_eq⟩ := (ih rest).1 hrest
              constructor
              · intro h
                injection h with h
                refine ⟨?_, ?_⟩
                · intro x hx
                  rcases List.mem_cons.1 hx with rfl | hx
                  · simp [hl]
                  · exact hkeys x hx
                · rw [List.map_cons, hl, ← h, hrest_eq]
                  simp
              · rintro ⟨h1, h2⟩
                rw [List.map_cons, hl] at h2
                simp only [Option.getD_some] at h2
                rw [h2, hrest_eq]

theorem numGtsE_of_keys (l : ℕ) :
    ∀ (gtB : List GtImg), (∀ im ∈ gtB, (lookup? im l).isSome = true) →
      numGtsE l gtB = Except.ok (numGtsTotal gtB l) := by
  intro gtB
  induction gtB with
  | nil => intro _; simp [numGtsE, numGtsTotal]
  | cons im gtB ih =>
      intro h
      obtain ⟨gts, hl⟩ := Option.isSome_iff_exists.1 (h im (List.mem_cons_self _ _))
      rw [numGtsE, hl]
      rw [ih (fun x hx => h x (List.mem_cons_of_mem _ hx))]
      simp [bind, Except.bind, numGtsTotal, hl]

theorem pySet_length (xs : List Bool) (i : Int) (b : Bool) :
    (pySet xs i b).length = xs.length := by
  simp [pySet]

theorem shapeOk_initMatched {l : ℕ} {gtB : List GtImg} {m : List (List Bool)}
    (h : initMatched l gtB = Except.ok m) : ShapeOk gtB l m := by
  obtain ⟨hkeys, rfl⟩ := (initMatched_ok_iff l gtB m).1 h
  constructor
  · simp
  · intro i im gts row hgt hl hrow
    rw [List.getElem?_map, hgt] at hrow
    simp only [Option.map_some'] at hrow
    injection hrow with hrow
    rw [← hrow, hl]
    simp

theorem shapeOk_set {gtB : List GtImg} {l : ℕ} {matched : List (List Bool)}
    (hs : ShapeOk gtB l matched) (imIdx : ℕ) (row row' : List Bool)
    (hget : matched[imIdx]? = some row) (hlen : row'.length = row.length) :
    ShapeOk gtB l (matched.set imIdx row') := by
  obtain ⟨hL, hR⟩ := hs
  constructor
  · simp [hL]
  · intro i im gts r hgt hl hr
    rw [List.getElem?_set] at hr
    by_cases hi : imIdx = i
    · subst hi
      rw [if_pos rfl] at hr
      by_cases hlt : imIdx < matched.length
      · rw [if_pos hlt] at hr
        injection hr with hr
        rw [← hr, hlen]
        exact hR imIdx im gts row hgt hl hget
      · rw [if_neg hlt] at hr
        exact Option.noConfusion hr
    · rw [if_neg hi] at hr
      exact hR i im gts r hgt hl hr

/-! ### Python indexing at a natural index -/

theorem pyIdx_natCast {α : Type} (xs : List α) (j : ℕ) (h : j < xs.length) :
    pyIdx xs (j : Int) = Except.ok (xs.get ⟨j, h⟩) := by
  have h0 : ¬ ((j : Int) < 0) := not_lt.2 (Int.natCast_nonneg j)
  simp only [pyIdx, if_neg h0]
  rw [dif_pos ⟨Int.natCast_nonneg j, by simpa using h⟩]
  congr 1

theorem pySet_natCast (xs : List Bool) (j : ℕ) (b : Bool) :
    pySet xs (j : Int) b = xs.set j b := by
  have h0 : ¬ ((j : Int) < 0) := not_lt.2 (Int.natCast_nonneg j)
  simp [pySet, if_neg h0]

/-! ### One matching step: source = specification, success, shape -/

theorem matchStep_full (gtB : List GtImg) (l : ℕ) (t : ℚ) (matched : List (List Bool))
    (imIdx : ℕ) (d : Det) (ht : (-1 : ℚ) < t)
    (hs : ShapeOk gtB l matched)
    (hkeys : ∀ im ∈ gtB, (lookup? im l).isSome = true) :
    matchStep gtB l t matched imIdx d = matchStepSpec gtB l t matched imIdx d ∧
    (∀ fm, matchStep gtB l t matched imIdx d = Except.ok fm → ShapeOk gtB l fm.2) ∧
    (imIdx < gtB.length → ∃ fm, matchStep gtB l t matched imIdx d = Except.ok fm) := by
  cases hgt : gtB[imIdx]? with
  | none =>
      have hlen : gtB.length ≤ imIdx := List.getElem?_eq_none_iff.1 hgt
      refine ⟨?_, ?_, ?_⟩
      · simp [matchStep, matchStepSpec, List.get?_eq_getElem?, hgt, bind, Except.bind]
      · intro fm hfm
        simp [matchStep, List.get?_eq_getElem?, hgt, bind, Except.bind] at hfm
      · intro him; omega
  | some im =>
      obtain ⟨gts, hl⟩ := Option.isSome_iff_exists.1 (hkeys im (List.getElem?_mem hgt))
      cases gts with
      | nil =>
          have hcode : matchStep gtB l t matched imIdx d = Except.ok (false, matched) := by
            simp [matchStep, List.get?_eq_getElem?, hgt, hl, bind, Except.bind, bestGtAux, ht]
          have hspec : matchStepSpec gtB l t matched imIdx d = Except.ok (false, matched) := by
            simp [matchStepSpec, List.get?_eq_getElem?, hgt, hl, bind, Except.bind, bestGtSpec]
          refine ⟨by rw [hcode, hspec], ?_, fun _ => ⟨_, hcode⟩⟩
          intro fm hfm
          rw [hcode] at hfm
          injection hfm with hfm
          rw [← hfm]
          exact hs
      | cons g gs =>
          obtain ⟨M, hM⟩ : ∃ M, ((g :: gs).map (get_iou d.box)).max? = some M := by
            rw [List.map_cons, List.max?_cons]
            exact ⟨_, rfl⟩
          have hMnn : (0 : ℚ) ≤ M := by
            obtain ⟨hmem, _⟩ := ratMax?_eq_some_iff.1 hM
            rcases List.mem_map.1 hmem with ⟨x, _, rfl⟩
            exact get_iou_nonneg d.box x
          have hspecSel : bestGtSpec d.box (g :: gs) =
              some (M, List.indexOf M ((g :: gs).map (get_iou d.box))) := by
            simp only [bestGtSpec]
            rw [hM]
          set j := List.indexOf M ((g :: gs).map (get_iou d.box)) with hj
          have hbest : bestGtAux d.box 0 (-1, -1) (g :: gs) = (M, (j : Int)) := by
            rw [bestGt_eq_spec, hspecSel]
          have hjlt : j < (g :: gs).length := by
            have := List.indexOf_lt_length.2 (ratMax?_eq_some_iff.1 hM).1
            simpa using this
          have himlen : imIdx < gtB.length := by
            by_contra hcon
            rw [List.getElem?_eq_none_iff.2 (le_of_not_lt hcon)] at hgt
            exact Option.noConfusion hgt
          obtain ⟨row, hrow⟩ : ∃ row, matched[imIdx]? = some row := by
            cases hr : matched[imIdx]? with
            | none =>
                have := List.getElem?_eq_none_iff.1 hr
                rw [hs.1] at this
                omega
            | some r => exact ⟨r, rfl⟩
          have hrowlen : row.length = (g :: gs).length := hs.2 imIdx im (g :: gs) row hgt hl hrow
          have hjrow : j < row.length := by omega
          have hpy : pyIdx row ((j : ℕ) : Int) = Except.ok (row.get ⟨j, hjrow⟩) :=
            pyIdx_natCast row j hjrow
          have hcode : matchStep gtB l t matched imIdx d =
              (if M < t then Except.ok (false, matched)
               else if row.get ⟨j, hjrow⟩ then Except.ok (false, matched)
               else Except.ok (true, matched.set imIdx (row.set j true))) := by
            simp only [matchStep, List.get?_eq_getElem?, hgt, hl, bind, Except.bind, hbest, hrow, hpy, pySet_natCast]
          have hspec : matchStepSpec gtB l t matched imIdx d =
              (if t ≤ M ∧ row.get ⟨j, hjrow⟩ = false then
                Except.ok (true, matched.set imIdx (row.set j true))
               else Except.ok (false, matched)) := by
            simp only [matchStepSpec, List.get?_eq_getElem?, hgt, hl, bind, Except.bind, hspecSel, hrow, hpy, pySet_natCast]
          refine ⟨?_, ?_, ?_⟩
          · rw [hcode, hspec]
            by_cases hMt : M < t
            · rw [if_pos hMt, if_neg (fun hc => absurd hMt (not_lt.2 hc.1))]
            · by_cases hb : row.get ⟨j, hjrow⟩ = true
              · rw [if_neg hMt, if_pos hb,
                  if_neg (fun hc => by rw [hb] at hc; exact Bool.noConfusion hc.2)]
              · have hb' : row.get ⟨j, hjrow⟩ = false := by
                  revert hb; cases row.get ⟨j, hjrow⟩ <;> simp
                rw [if_neg hMt, if_neg hb, if_pos ⟨le_of_not_lt hMt, hb'⟩]
          · intro fm hfm
            rw [hcode] at hfm
            by_cases hMt : M < t
            · rw [if_pos hMt] at hfm
              injection hfm with hfm
              rw [← hfm]
              exact hs
            · rw [if_neg hMt] at hfm
              by_cases hb : row.get ⟨j, hjrow⟩ = true
              · rw [if_pos hb] at hfm
                injection hfm with hfm
                rw [← hfm]
                exact hs
              · rw [if_neg hb] at hfm
                injection hfm with hfm
                rw [← hfm]
                exact shapeOk_set hs imIdx row (row.set j true) hrow (by simp)
          · intro _
            rw [hcode]
            by_cases hMt : M < t
            · exact ⟨_, by rw [if_pos hMt]⟩
            · by_cases hb : row.get ⟨j, hjrow⟩ = true
              · exact ⟨_, by rw [if_neg hMt, if_pos hb]⟩
              · exact ⟨_, by rw [if_neg hMt, if_neg hb]⟩

/-! ### The matching loop: source = specification, success -/

theorem matchFold_full (gtB : List GtImg) (l : ℕ) (t : ℚ) (ht : (-1 : ℚ) < t)
    (hkeys : ∀ im ∈ gtB, (lookup? im l).isSome = true) :
    ∀ (dets : List (ℕ × Det)) (matched : List (List Bool)), ShapeOk gtB l matched →
      (matchFold gtB l t dets matched = matchFoldSpec gtB l t dets matched ∧
       ((∀ p ∈ dets, p.1 < gtB.length) →
         ∃ flags, matchFold gtB l t dets matched = Except.ok flags)) := by
  intro dets
  induction dets with
  | nil => exact fun matched _ => ⟨rfl, fun _ => ⟨[], rfl⟩⟩
  | cons p rest ih =>
      intro matched hs
      obtain ⟨imIdx, d⟩ := p
      obtain ⟨heq, hshape, hex⟩ := matchStep_full gtB l t matched imIdx d ht hs hkeys
      cases hstep : matchStep gtB l t matched imIdx d with
      | error e =>
          have hstepSpec : matchStepSpec gtB l t matched imIdx d = Except.error e := by
            rw [← heq, hstep]
          constructor
          · simp [matchFold, matchFoldSpec, hstep, hstepSpec, bind, Except.bind]
          · intro hall
            obtain ⟨fm, hok⟩ := hex (hall (imIdx, d) (List.mem_cons_self _ _))
            rw [hstep] at hok
            exact Except.noConfusion hok
      | ok fm =>
          have hstepSpec : matchStepSpec gtB l t matched imIdx d = Except.ok fm := by
            rw [← heq, hstep]
          have hs' := hshape fm hstep
          obtain ⟨ihEq, ihEx⟩ := ih fm.2 hs'
          constructor
          · simp only [matchFold, matchFoldSpec, hstep, hstepSpec, bind, Except.bind, ihEq]
          · intro hall
            obtain ⟨flags, hflags⟩ := ihEx (fun q hq => hall q (List.mem_cons_of_mem _ hq))
            exact ⟨fm.1 :: flags, by simp only [matchFold, hstep, bind, Except.bind, hflags]⟩

theorem clsDets_fst_lt (detB : List DetImg) (l : ℕ) :
    ∀ p ∈ clsDets detB l, p.1 < detB.length := by
  intro p hp
  simp only [clsDets, List.mem_flatten, List.mem_map] at hp
  obtain ⟨sub, ⟨q, hq, hsub⟩, hpsub⟩ := hp
  have hq1 : q.1 < detB.length := by
    have := List.fst_lt_of_mem_enum hq
    exact this
  rw [← hsub] at hpsub
  cases hql : lookup? q.2 l with
  | none => rw [hql] at hpsub; simp at hpsub
  | some ds =>
      rw [hql] at hpsub
      obtain ⟨d, _, hd⟩ := List.mem_map.1 hpsub
      rw [← hd]
      exact hq1

theorem sortedClsDets_fst_lt (detB : List DetImg) (l : ℕ) :
    ∀ p ∈ sortedClsDets detB l, p.1 < detB.length := by
  intro p hp
  exact clsDets_fst_lt detB l p
    ((List.perm_insertionSort detBefore (clsDets detB l)).mem_iff.1 hp)

theorem classFlags_eq_spec (detB : List DetImg) (gtB : List GtImg) (l : ℕ) (t : ℚ)
    (ht : (-1 : ℚ) < t) :
    classFlags detB gtB l t = classFlagsSpec detB gtB l t := by
  cases hinit : initMatched l gtB with
  | error e => simp [classFlags, classFlagsSpec, hinit, bind, Except.bind]
  | ok m0 =>
      have hkeys := ((initMatched_ok_iff l gtB m0).1 hinit).1
      have hs := shapeOk_initMatched hinit
      obtain ⟨heq, _⟩ := matchFold_full gtB l t ht hkeys (sortedClsDets detB l) m0 hs
      simp [classFlags, classFlagsSpec, hinit, bind, Except.bind, heq]

theorem classFlags_ok (detB : List DetImg) (gtB : List GtImg) (l : ℕ) (t : ℚ)
    (ht : (-1 : ℚ) < t) (hkeys : ∀ im ∈ gtB, (lookup? im l).isSome = true)
    (hlen : detB.length ≤ gtB.length) :
    ∃ flags, classFlags detB gtB l t = Except.ok flags := by
  have hinit : initMatched l gtB = Except.ok
      (gtB.map (fun im => ((lookup? im l).getD []).map (fun _ => false))) :=
    (initMatched_ok_iff l gtB _).2 ⟨hkeys, rfl⟩
  have hs := shapeOk_initMatched hinit
  obtain ⟨_, hex⟩ := matchFold_full gtB l t ht hkeys (sortedClsDets detB l) _ hs
  obtain ⟨flags, hflags⟩ := hex (fun p hp => lt_of_lt_of_le (sortedClsDets_fst_lt detB l p hp) hlen)
  exact ⟨flags, by simp only [classFlags, hinit, bind, Except.bind, hflags]⟩

/-! ### Per-class evaluation -/

theorem numGtsE_ok_dest (l : ℕ) :
    ∀ (gtB : List GtImg) (n : ℕ), numGtsE l gtB = Except.ok n →
      (∀ im ∈ gtB, (lookup? im l).isSome = true) ∧ n = numGtsTotal gtB l := by
  intro gtB
  induction gtB with
  | nil =>
      intro n h
      simp only [numGtsE] at h
      injection h with h
      exact ⟨by simp, by simp [← h, numGtsTotal]⟩
  | cons im gtB ih =>
      intro n h
      cases hl : lookup? im l with
      | none => rw [numGtsE, hl] at h; exact Except.noConfusion h
      | some gts =>
          rw [numGtsE, hl] at h
          cases hrest : numGtsE l gtB with
          | error e => rw [hrest] at h; exact Except.noConfusion h
          | ok nr =>
              rw [hrest] at h
              simp only [bind, Except.bind] at h
              injection h with h
              obtain ⟨hkeys, hnr⟩ := ih nr hrest
              refine ⟨?_, ?_⟩
              · intro x hx
                rcases List.mem_cons.1 hx with rfl | hx
                · simp [hl]
                · exact hkeys x hx
              · rw [← h, hnr]
                simp [numGtsTotal, hl]

theorem classEval_ok_dest {detB : List DetImg} {gtB : List GtImg} {l : ℕ} {t : ℚ}
    {method : String} {an : ℚ × ℕ}
    (h : classEval detB gtB l t method = Except.ok an) :
    (∃ flags, classFlags detB gtB l t = Except.ok flags) ∧
    (∀ im ∈ gtB, (lookup? im l).isSome = true) ∧
    an.2 = numGtsTotal gtB l ∧
    (method = "area" ∨ method = "interp") := by
  cases hcf : classFlags detB gtB l t with
  | error e => rw [classEval, hcf] at h; simp [bind, Except.bind] at h
  | ok flags =>
      rw [classEval, hcf] at h
      cases hn : numGtsE l gtB with
      | error e => rw [hn] at h; simp [bind, Except.bind] at h
      | ok n =>
          rw [hn] at h
          simp only [bind, Except.bind] at h
          obtain ⟨hkeys, hnval⟩ := numGtsE_ok_dest l gtB n hn
          by_cases hA : method = "area"
          · rw [if_pos hA] at h
            injection h with h
            exact ⟨⟨flags, rfl⟩, hkeys, by rw [← h, hnval], Or.inl hA⟩
          · rw [if_neg hA] at h
            by_cases hI : method = "interp"
            · rw [if_pos hI] at h
              injection h with h
              exact ⟨⟨flags, rfl⟩, hkeys, by rw [← h, hnval], Or.inr hI⟩
            · rw [if_neg hI] at h
              exact Except.noConfusion h

theorem classEval_ok_of (detB : List DetImg) (gtB : List GtImg) (l : ℕ) (t : ℚ)
    (method : String) (hm : method = "area" ∨ method = "interp")
    (ht : (-1 : ℚ) < t) (hkeys : ∀ im ∈ gtB, (lookup? im l).isSome = true)
    (hlen : detB.length ≤ gtB.length) :
    ∃ an, classEval detB gtB l t method = Except.ok an := by
  obtain ⟨flags, hflags⟩ := classFlags_ok detB gtB l t ht hkeys hlen
  have hn := numGtsE_of_keys l gtB hkeys
  rcases hm with rfl | rfl
  · exact ⟨_, by rw [classEval, hflags, hn]; rfl⟩
  · exact ⟨_, by rw [classEval, hflags, hn]; rfl⟩

theorem initMatched_error_of_missing (l : ℕ) :
    ∀ (gtB : List GtImg), (∃ im ∈ gtB, lookup? im l = none) →
      initMatched l gtB = Except.error (PyErr.keyError l) := by
  intro gtB
  induction gtB with
  | nil => rintro ⟨im, him, _⟩; simp at him
  | cons im gtB ih =>
      rintro ⟨x, hx, hnone⟩
      rcases List.mem_cons.1 hx with rfl | hx
      · rw [initMatched, hnone]
      · cases hl : lookup? im l with
        | none => rw [initMatched, hl]
        | some gts =>
            rw [initMatched, hl, ih ⟨x, hx, hnone⟩]
            rfl

theorem classEval_key_error (detB : List DetImg) (gtB : List GtImg) (l : ℕ) (t : ℚ)
    (method : String) (hmiss : ∃ im ∈ gtB, lookup? im l = none) :
    classEval detB gtB l t method = Except.error (PyErr.keyError l) := by
  have hinit := initMatched_error_of_missing l gtB hmiss
  rw [classEval, classFlags, hinit]
  rfl

theorem apArea_nil : apArea [] [] = 0 := by
  norm_num [apArea, envelope, adjSum]

theorem apInterp_nil : apInterp [] [] = 0 := by
  have h : ∀ r : ℚ, maxPrecAt [] [] r = 0 := fun r => rfl
  simp [apInterp, h]

theorem classEval_no_dets {detB : List DetImg} {gtB : List GtImg} {l : ℕ} {t : ℚ}
    {method : String} {an : ℚ × ℕ}
    (hdets : clsDets detB l = [])
    (h : classEval detB gtB l t method = Except.ok an) : an.1 = 0 := by
  have hsorted : sortedClsDets detB l = [] := by
    rw [sortedClsDets, hdets]
    rfl
  cases hinit : initMatched l gtB with
  | error e =>
      rw [classEval, classFlags, hinit] at h
      simp [bind, Except.bind] at h
  | ok m0 =>
      have hcf : classFlags detB gtB l t = Except.ok [] := by
        rw [classFlags, hinit, hsorted]
        rfl
      rw [classEval, hcf] at h
      cases hn : numGtsE l gtB with
      | error e => rw [hn] at h; simp [bind, Except.bind] at h
      | ok n =>
          rw [hn] at h
          simp only [bind, Except.bind] at h
          by_cases hA : method = "area"
          · rw [if_pos hA] at h
            injection h with h
            rw [← h]
            simpa [cumsum, cumsumFrom] using apArea_nil
          · rw [if_neg hA] at h
            by_cases hI : method = "interp"
            · rw [if_pos hI] at h
              injection h with h
              rw [← h]
              simpa [cumsum, cumsumFrom] using apInterp_nil
            · rw [if_neg hI] at h
              exact Except.noConfusion h

/-! ### The per-class loop -/

theorem processLabels_ok_iff (detB : List DetImg) (gtB : List GtImg) (t : ℚ) (method : String) :
    ∀ labels : List ℕ,
      (∃ res, processLabels detB gtB t method labels = Except.ok res) ↔
        ∀ c ∈ labels, ∃ an, classEval detB gtB c t method = Except.ok an := by
  intro labels
  induction labels with
  | nil => exact ⟨fun _ c hc => absurd hc (List.not_mem_nil c), fun _ => ⟨([], []), rfl⟩⟩
  | cons c ls ih =>
      constructor
      · rintro ⟨res, hres⟩ x hx
        cases hc : classEval detB gtB c t method with
        | error e => rw [processLabels, hc] at hres; exact Except.noConfusion hres
        | ok an =>
            cases hrest : processLabels detB gtB t method ls with
            | error e =>
                rw [processLabels, hc, hrest] at hres
                simp [bind, Except.bind] at hres
            | ok rest =>
                rcases List.mem_cons.1 hx with rfl | hx
                · exact ⟨an, hc⟩
                · exact (ih.1 ⟨rest, hrest⟩) x hx
      · intro hall
        obtain ⟨an, hc⟩ := hall c (List.mem_cons_self _ _)
        obtain ⟨rest, hrest⟩ := ih.2 (fun x hx => hall x (List.mem_cons_of_mem _ hx))
        by_cases h2 : 0 < an.2
        · exact ⟨(an.1 :: rest.1, (c, some an.1) :: rest.2), by
            rw [processLabels, hc, hrest]; simp [bind, Except.bind, h2]⟩
        · exact ⟨(rest.1, (c, none) :: rest.2), by
            rw [processLabels, hc, hrest]; simp [bind, Except.bind, h2]⟩

theorem processLabels_fst (detB : List DetImg) (gtB : List GtImg) (t : ℚ) (method : String) :
    ∀ (labels : List ℕ) (res), processLabels detB gtB t method labels = Except.ok res →
      res.1 = labels.filterMap (apEntry detB gtB t method) := by
  intro labels
  induction labels with
  | nil =>
      intro res h
      simp only [processLabels] at h
      injection h with h
      rw [← h]
      rfl
  | cons c ls ih =>
      intro res h
      cases hc : classEval detB gtB c t method with
      | error e => rw [processLabels, hc] at h; exact Except.noConfusion h
      | ok an =>
          cases hrest : processLabels detB gtB t method ls with
          | error e => rw [processLabels, hc, hrest] at h; simp [bind, Except.bind] at h
          | ok rest =>
              rw [processLabels, hc, hrest] at h
              simp only [bind, Except.bind] at h
              have hfm : apEntry detB gtB t method c = if 0 < an.2 then some an.1 else none := by
                rw [apEntry, hc]
              by_cases h2 : 0 < an.2
              · rw [if_pos h2] at h
                injection h with h
                rw [← h, List.filterMap_cons, hfm, if_pos h2, ih rest hrest]
              · rw [if_neg h2] at h
                injection h with h
                rw [← h, List.filterMap_cons, hfm, if_neg h2, ih rest hrest]

theorem processLabels_lookup (detB : List DetImg) (gtB : List GtImg) (t : ℚ) (method : String) :
    ∀ (labels : List ℕ) (res), processLabels detB gtB t method labels = Except.ok res →
      labels.Nodup →
      ∀ l an, l ∈ labels → classEval detB gtB l t method = Except.ok an →
        lookup? res.2 l = some (if 0 < an.2 then some an.1 else none) := by
  intro labels
  induction labels with
  | nil => intro res _ _ l an hl; exact absurd hl (List.not_mem_nil l)
  | cons c ls ih =>
      intro res h hnd l an hl hcl
      cases hc : classEval detB gtB c t method with
      | error e => rw [processLabels, hc] at h; exact Except.noConfusion h
      | ok an' =>
          cases hrest : processLabels detB gtB t method ls with
          | error e => rw [processLabels, hc, hrest] at h; simp [bind, Except.bind] at h
          | ok rest =>
              rw [processLabels, hc, hrest] at h
              simp only [bind, Except.bind] at h
              rcases List.mem_cons.1 hl with rfl | hl
              · rw [hcl] at hc
                injection hc with hc
                subst hc
                by_cases h2 : 0 < an.2
                · rw [if_pos h2] at h
                  injection h with h
                  rw [← h]
                  simp [lookup?_cons, h2]
                · rw [if_neg h2] at h
                  injection h with h
                  rw [← h]
                  simp [lookup?_cons, h2]
              · have hne : c ≠ l := by
                  rintro rfl
                  exact (List.nodup_cons.1 hnd).1 hl
                have htail : lookup? rest.2 l = some (if 0 < an.2 then some an.1 else none) :=
                  ih rest hrest (List.nodup_cons.1 hnd).2 l an hl hcl
                by_cases h2 : 0 < an'.2
                · rw [if_pos h2] at h
                  injection h with h
                  rw [← h]
                  rw [lookup?_cons, if_neg hne]
                  exact htail
                · rw [if_neg h2] at h
                  injection h with h
                  rw [← h]
                  rw [lookup?_cons, if_neg hne]
                  exact htail

theorem processLabels_first_error (detB : List DetImg) (gtB : List GtImg) (t : ℚ)
    (method : String) :
    ∀ labels : List ℕ,
      (∃ c ∈ labels, ∀ an, classEval detB gtB c t method ≠ Except.ok an) →
      ∃ c ∈ labels, ∃ err, classEval detB gtB c t method = Except.error err ∧
        processLabels detB gtB t method labels = Except.error err := by
  intro labels
  induction labels with
  | nil => rintro ⟨c, hc, _⟩; exact absurd hc (List.not_mem_nil c)
  | cons c ls ih =>
      rintro ⟨x, hx, hxfail⟩
      cases hc : classEval detB gtB c t method with
      | error e =>
          exact ⟨c, List.mem_cons_self _ _, e, hc, by rw [processLabels, hc]; rfl⟩
      | ok an =>
          have hxls : x ∈ ls := by
            rcases List.mem_cons.1 hx with rfl | hxls
            · exact absurd hc (hxfail an)
            · exact hxls
          obtain ⟨c', hc', err, hcerr, hperr⟩ := ih ⟨x, hxls, hxfail⟩
          refine ⟨c', List.mem_cons_of_mem _ hc', err, hcerr, ?_⟩
          rw [processLabels, hc, hperr]
          rfl

/-! ### Top-level destructuring and the mean formula -/

theorem compute_map_ok_dest {detB : List DetImg} {gtB : List GtImg} {t : ℚ}
    {method : String} {m : ℚ} {all : List (ℕ × Option ℚ)}
    (h : compute_map detB gtB t method = Except.ok (m, all)) :
    ∃ res, processLabels detB gtB t method (sortedLabels gtB) = Except.ok res ∧
      res.1 ≠ [] ∧ m = res.1.sum / (res.1.length : ℚ) ∧ all = res.2 := by
  cases hres : processLabels detB gtB t method (sortedLabels gtB) with
  | error e => rw [compute_map, hres] at h; exact Except.noConfusion h
  | ok res =>
      rw [compute_map, hres] at h
      simp only [bind, Except.bind] at h
      by_cases hz : res.1.length = 0
      · rw [if_pos hz] at h; exact Except.noConfusion h
      · rw [if_neg hz] at h
        injection h with h
        injection h with h1 h2
        exact ⟨res, rfl, fun hc => hz (by rw [hc]; rfl), h1.symm, h2.symm⟩

theorem filterMap_eq_filter_map {α β : Type} (f : α → Option β) (p : α → Bool) (g : α → β) :
    ∀ L : List α, (∀ c ∈ L, f c = if p c then some (g c) else none) →
      L.filterMap f = (L.filter p).map g := by
  intro L
  induction L with
  | nil => intro _; rfl
  | cons c ls ih =>
      intro h
      rw [List.filterMap_cons, List.filter_cons]
      by_cases hp : p c = true
      · rw [h c (List.mem_cons_self _ _), if_pos hp, if_pos hp, List.map_cons,
          ih (fun x hx => h x (List.mem_cons_of_mem _ hx))]
      · rw [h c (List.mem_cons_self _ _), if_neg hp, if_neg hp,
          ih (fun x hx => h x (List.mem_cons_of_mem _ hx))]

theorem sortedLabels_nodup (gtB : List GtImg) : (sortedLabels gtB).Nodup :=
  ((List.perm_insertionSort _ _).nodup_iff).2 (List.nodup_dedup _)

theorem apEntry_eq_of_ok {detB : List DetImg} {gtB : List GtImg} {t : ℚ} {method : String}
    {c : ℕ} {an : ℚ × ℕ} (hc : classEval detB gtB c t method = Except.ok an) :
    apEntry detB gtB t method c =
      (if (0 < numGtsTotal gtB c : Bool) then some (classAPD detB gtB t method c) else none) := by
  have h2 := (classEval_ok_dest hc).2.2.1
  have hL : apEntry detB gtB t method c = if 0 < an.2 then some an.1 else none := by
    rw [apEntry, hc]
  have hR : classAPD detB gtB t method c = an.1 := by
    rw [classAPD, hc]
    rfl
  rw [hL, hR, ← h2]
  by_cases hpos : 0 < an.2
  · rw [if_pos hpos, if_pos (decide_eq_true hpos)]
  · rw [if_neg hpos, if_neg (by simp [hpos])]

theorem compute_map_mean_aux {detB : List DetImg} {gtB : List GtImg} {t : ℚ}
    {method : String} {m : ℚ} {all : List (ℕ × Option ℚ)}
    (h : compute_map detB gtB t method = Except.ok (m, all)) :
    meanClasses gtB ≠ [] ∧
    m = ((meanClasses gtB).map (classAPD detB gtB t method)).sum /
        ((meanClasses gtB).length : ℚ) := by
  obtain ⟨res, hres, hne, hm, _⟩ := compute_map_ok_dest h
  have hfst := processLabels_fst detB gtB t method _ res hres
  have hkey : (sortedLabels gtB).filterMap (apEntry detB gtB t method) =
      (meanClasses gtB).map (classAPD detB gtB t method) := by
    rw [meanClasses]
    apply filterMap_eq_filter_map
    intro c hc
    obtain ⟨an, han⟩ := ((processLabels_ok_iff detB gtB t method _).1 ⟨res, hres⟩) c hc
    exact apEntry_eq_of_ok han
  rw [hfst, hkey] at hm hne
  have hlen : (meanClasses gtB).length =
      ((meanClasses gtB).map (classAPD detB gtB t method)).length := by simp
  refine ⟨fun hcon => hne (by rw [hcon]; rfl), ?_⟩
  rw [hm, hlen]

/-! ### Claim theorems (part 1) -/

instance : IsTotal (ℕ × Det) detBefore := ⟨fun a b => le_total b.2.score a.2.score⟩

instance : IsTrans (ℕ × Det) detBefore := ⟨fun _ _ _ hab hbc => le_trans hbc hab⟩

/-- **C1.** For every class, the per-class matcher processes the class's
detections in descending-score order (the sorted list is `Sorted` for the
"score of the right element ≤ score of the left element" relation), and is
extensionally equal to the specification matcher `classFlagsSpec`, which for
each detection selects among ALL ground-truth boxes of the same image and
class (matched or not) the one of maximum IoU, declares the detection TP
exactly when that maximum IoU is at least the threshold and the selected box
is unmatched (then marking it matched), and otherwise FP with no
reassignment to a next-best box.  (For `iou_threshold ≤ -1` the source
instead evaluates `gt_matched[im_idx][-1]` on images without ground truth,
so the sentinel hypothesis `-1 < iou_threshold` is required.) -/
theorem compute_map_matching_rule (detB : List DetImg) (gtB : List GtImg) (l : ℕ) (t : ℚ)
    (ht : (-1 : ℚ) < t) :
    List.Sorted detBefore (sortedClsDets detB l) ∧
    classFlags detB gtB l t = classFlagsSpec detB gtB l t :=
  ⟨List.sorted_insertionSort detBefore (clsDets detB l), classFlags_eq_spec detB gtB l t ht⟩

/-- Witness for `compute_map_matching_rule` at a concrete input. -/
theorem compute_map_matching_rule_witness :
    List.Sorted detBefore (sortedClsDets [[(0, [⟨⟨0, 0, 1, 1⟩, 1/2⟩])]] 0) ∧
    classFlags [[(0, [⟨⟨0, 0, 1, 1⟩, 1/2⟩])]] [[(0, [⟨0, 0, 1, 1⟩])]] 0 (1/2) =
      classFlagsSpec [[(0, [⟨⟨0, 0, 1, 1⟩, 1/2⟩])]] [[(0, [⟨0, 0, 1, 1⟩])]] 0 (1/2) :=
  compute_map_matching_rule _ _ 0 (1/2) (by norm_num)

/-- **C6.** A class of the universe with positive total ground truth and no
detections gets AP exactly `0` in `all_aps` (whatever the method — a
successful run fixes the method to `area` or `interp`). -/
theorem compute_map_no_dets_ap_zero (detB : List DetImg) (gtB : List GtImg) (t : ℚ)
    (method : String) (m : ℚ) (all : List (ℕ × Option ℚ)) (l : ℕ)
    (hok : compute_map detB gtB t method = Except.ok (m, all))
    (hl : l ∈ sortedLabels gtB)
    (hdets : clsDets detB l = [])
    (hgt : 0 < numGtsTotal gtB l) :
    lookup? all l = some (some 0) := by
  obtain ⟨res, hres, _, _, hall⟩ := compute_map_ok_dest hok
  obtain ⟨an, han⟩ := ((processLabels_ok_iff detB gtB t method _).1 ⟨res, hres⟩) l hl
  have hlook := processLabels_lookup detB gtB t method _ res hres (sortedLabels_nodup gtB)
    l an hl han
  have h2 : an.2 = numGtsTotal gtB l := (classEval_ok_dest han).2.2.1
  have h1 : an.1 = 0 := classEval_no_dets hdets han
  rw [hall, hlook, h1, if_pos (h2 ▸ hgt)]

/-- **C7.** A class of the universe with zero total ground truth (and some
detections) is recorded in `all_aps` as the explicit undefined marker
(`none`, modelling `np.nan`), is not among the classes contributing to the
mean, and the returned mean is the mean over exactly the positive-ground-
truth classes. -/
theorem compute_map_zero_gt_nan_excluded (detB : List DetImg) (gtB : List GtImg) (t : ℚ)
    (method : String) (m : ℚ) (all : List (ℕ × Option ℚ)) (l : ℕ)
    (hok : compute_map detB gtB t method = Except.ok (m, all))
    (hl : l ∈ sortedLabels gtB)
    (_hdet : clsDets detB l ≠ [])
    (hgt : numGtsTotal gtB l = 0) :
    lookup? all l = some none ∧
    l ∉ meanClasses gtB ∧
    m = ((meanClasses gtB).map (classAPD detB gtB t method)).sum /
        ((meanClasses gtB).length : ℚ) := by
  obtain ⟨res, hres, _, _, hall⟩ := compute_map_ok_dest hok
  obtain ⟨an, han⟩ := ((processLabels_ok_iff detB gtB t method _).1 ⟨res, hres⟩) l hl
  have hlook := processLabels_lookup detB gtB t method _ res hres (sortedLabels_nodup gtB)
    l an hl han
  have h2 : an.2 = numGtsTotal gtB l := (classEval_ok_dest han).2.2.1
  have hnpos : ¬ 0 < an.2 := by rw [h2, hgt]; exact lt_irrefl 0
  refine ⟨?_, ?_, (compute_map_mean_aux hok).2⟩
  · rw [hall, hlook, if_neg hnpos]
  · intro hmem
    have := List.of_mem_filter hmem
    rw [hgt] at this
    simp at this

/-- **C4 counterexample.**  With an empty input and an unknown method,
`compute_map` does not fail with the configuration error: the per-class
loop body never runs, and the final empty mean raises `ZeroDivisionError`
instead. -/
theorem compute_map_bad_method_cex :
    compute_map [] [] (1/2) "linear" = Except.error PyErr.zeroDivisionError ∧
    compute_map [] [] (1/2) "linear" ≠ Except.error PyErr.valueError := by
  refine ⟨rfl, ?_⟩
  intro hcon
  rw [(rfl : compute_map [] [] (1/2) "linear" = Except.error PyErr.zeroDivisionError)] at hcon
  injection hcon with h
  exact PyErr.noConfusion h

/-- **C4 (amended).**  With a method other than `area`/`interp`,
`compute_map` never returns normally (no silent default); and as soon as
the first class's matching phase completes (in particular whenever the
class universe is nonempty and the first class is keyed in every image),
the unknown method is reported as `ValueError`. -/
theorem compute_map_bad_method_fails (detB : List DetImg) (gtB : List GtImg) (t : ℚ)
    (method : String) (h1 : method ≠ "area") (h2 : method ≠ "interp") :
    (∀ r, compute_map detB gtB t method ≠ Except.ok r) ∧
    (∀ l ls, sortedLabels gtB = l :: ls →
      (∃ flags, classFlags detB gtB l t = Except.ok flags) →
      compute_map detB gtB t method = Except.error PyErr.valueError) := by
  constructor
  · rintro ⟨m, all⟩ hok
    obtain ⟨res, hres, hne, _, _⟩ := compute_map_ok_dest hok
    cases hlab : sortedLabels gtB with
    | nil =>
        rw [hlab] at hres
        simp only [processLabels] at hres
        injection hres with hres
        rw [← hres] at hne
        exact hne rfl
    | cons c ls =>
        rw [hlab] at hres
        obtain ⟨an, han⟩ := ((processLabels_ok_iff detB gtB t method _).1 ⟨res, hres⟩)
          c (List.mem_cons_self _ _)
        rcases (classEval_ok_dest han).2.2.2 with hA | hI
        · exact h1 hA
        · exact h2 hI
  · rintro l ls hlab ⟨flags, hflags⟩
    have hinit : ∃ m0, initMatched l gtB = Except.ok m0 := by
      cases hi : initMatched l gtB with
      | error e => rw [classFlags, hi] at hflags; exact Except.noConfusion hflags
      | ok m0 => exact ⟨m0, rfl⟩
    obtain ⟨m0, hm0⟩ := hinit
    have hkeys := ((initMatched_ok_iff l gtB m0).1 hm0).1
    have hn := numGtsE_of_keys l gtB hkeys
    have hce : classEval detB gtB l t method = Except.error PyErr.valueError := by
      rw [classEval, hflags, hn]
      simp [bind, Except.bind, h1, h2]
    rw [compute_map, hlab, processLabels, hce]
    rfl

/-- **C10 counterexample.**  Label `1` is a key of the first image's
ground-truth dict but not of the second's; with an unknown method the run
fails with `ValueError` (raised while processing label `0`, before label
`1`'s match table is built), not with `KeyError`. -/
theorem compute_map_missing_key_cex :
    (lookup? [(0, [(⟨0, 0, 1, 1⟩ : Box)]), (1, [⟨0, 0, 1, 1⟩])] 1).isSome = true ∧
    lookup? [((0 : ℕ), [(⟨0, 0, 1, 1⟩ : Box)])] 1 = none ∧
    compute_map [] [[(0, [⟨0, 0, 1, 1⟩]), (1, [⟨0, 0, 1, 1⟩])], [(0, [⟨0, 0, 1, 1⟩])]]
      (1/2) "other" = Except.error PyErr.valueError ∧
    ∀ l', compute_map [] [[(0, [⟨0, 0, 1, 1⟩]), (1, [⟨0, 0, 1, 1⟩])], [(0, [⟨0, 0, 1, 1⟩])]]
      (1/2) "other" ≠ Except.error (PyErr.keyError l') := by
  have h3 : compute_map [] [[(0, [(⟨0, 0, 1, 1⟩ : Box)]), (1, [⟨0, 0, 1, 1⟩])], [(0, [⟨0, 0, 1, 1⟩])]]
      (1/2) "other" = Except.error PyErr.valueError := rfl
  refine ⟨rfl, rfl, h3, ?_⟩
  intro l' hcon
  rw [h3] at hcon
  injection hcon with h
  exact PyErr.noConfusion h

/-- **C10 (amended).**  `compute_map` returns normally only if every class
of the universe is a key of every image's ground-truth dict; and with a
valid method (`area`/`interp`), a sentinel-safe threshold and
index-aligned inputs, any missing key makes the run fail with a
`KeyError`. -/
theorem compute_map_missing_key (detB : List DetImg) (gtB : List GtImg) (t : ℚ)
    (method : String) :
    (∀ m all, compute_map detB gtB t method = Except.ok (m, all) →
      ∀ l ∈ sortedLabels gtB, ∀ im ∈ gtB, (lookup? im l).isSome = true) ∧
    ((method = "area" ∨ method = "interp") → (-1 : ℚ) < t → detB.length ≤ gtB.length →
      (∃ l ∈ sortedLabels gtB, ∃ im ∈ gtB, lookup? im l = none) →
      ∃ l', compute_map detB gtB t method = Except.error (PyErr.keyError l')) := by
  constructor
  · intro m all hok l hl im him
    obtain ⟨res, hres, _, _, _⟩ := compute_map_ok_dest hok
    obtain ⟨an, han⟩ := ((processLabels_ok_iff detB gtB t method _).1 ⟨res, hres⟩) l hl
    exact (classEval_ok_dest han).2.1 im him
  · rintro hm ht hlen ⟨l, hl, im, him, hnone⟩
    have hfail : ∀ an, classEval detB gtB l t method ≠ Except.ok an := by
      intro an hok
      have := (classEval_ok_dest hok).2.1 im him
      rw [hnone] at this
      simp at this
    obtain ⟨c, _, err, hcerr, hperr⟩ :=
      processLabels_first_error detB gtB t method _ ⟨l, hl, hfail⟩
    have hkey : ∃ l', err = PyErr.keyError l' := by
      by_cases hkeysc : ∀ im' ∈ gtB, (lookup? im' c).isSome = true
      · obtain ⟨an, han⟩ := classEval_ok_of detB gtB c t method hm ht hkeysc hlen
        rw [han] at hcerr
        exact Except.noConfusion hcerr
      · push_neg at hkeysc
        obtain ⟨im', him', hns⟩ := hkeysc
        have hnone' : lookup? im' c = none := by
          cases hx : lookup? im' c with
          | none => rfl
          | some v => rw [hx] at hns; simp at hns
        rw [classEval_key_error detB gtB c t method ⟨im', him', hnone'⟩] at hcerr
        injection hcerr with h
        exact ⟨c, h.symm⟩
    obtain ⟨l', hl'⟩ := hkey
    refine ⟨l', ?_⟩
    rw [compute_map, hperr, hl']
    rfl

/-! ### Adding a fresh class with empty ground truth -/

theorem mem_sortedLabels_iff (gtB : List GtImg) (c : ℕ) :
    c ∈ sortedLabels gtB ↔ ∃ im ∈ gtB, c ∈ im.map Prod.fst := by
  rw [sortedLabels, (List.perm_insertionSort _ _).mem_iff, allGtLabels, List.mem_dedup,
    List.mem_flatten]
  constructor
  · rintro ⟨sub, hsub, hc⟩
    obtain ⟨im, him, rfl⟩ := List.mem_map.1 hsub
    exact ⟨im, him, hc⟩
  · rintro ⟨im, him, hc⟩
    exact ⟨im.map Prod.fst, List.mem_map_of_mem _ him, hc⟩

theorem sortedLabels_mem_ne_fresh {gtB : List GtImg} {lnew : ℕ}
    (hfresh : ∀ im ∈ gtB, lookup? im lnew = none) :
    ∀ c ∈ sortedLabels gtB, c ≠ lnew := by
  intro c hc h
  subst h
  obtain ⟨im, him, hkey⟩ := (mem_sortedLabels_iff gtB c).1 hc
  exact ((lookup?_eq_none_iff im c).1 (hfresh im him)) hkey

theorem initMatched_addEmpty {c lnew : ℕ} (hne : c ≠ lnew) :
    ∀ gtB : List GtImg, initMatched c (addEmptyClass gtB lnew) = initMatched c gtB := by
  intro gtB
  induction gtB with
  | nil => rfl
  | cons im gtB ih =>
      have hmap : addEmptyClass (im :: gtB) lnew =
          (im ++ [(lnew, [])]) :: addEmptyClass gtB lnew := rfl
      rw [hmap, initMatched, initMatched, lookup?_append_fresh im lnew c [] (fun h => hne h.symm), ih]

theorem numGtsE_addEmpty {c lnew : ℕ} (hne : c ≠ lnew) :
    ∀ gtB : List GtImg, numGtsE c (addEmptyClass gtB lnew) = numGtsE c gtB := by
  intro gtB
  induction gtB with
  | nil => rfl
  | cons im gtB ih =>
      have hmap : addEmptyClass (im :: gtB) lnew =
          (im ++ [(lnew, [])]) :: addEmptyClass gtB lnew := rfl
      rw [hmap, numGtsE, numGtsE, lookup?_append_fresh im lnew c [] (fun h => hne h.symm), ih]

theorem matchStep_addEmpty {c lnew : ℕ} (hne : c ≠ lnew) (gtB : List GtImg) (t : ℚ)
    (matched : List (List Bool)) (imIdx : ℕ) (d : Det) :
    matchStep (addEmptyClass gtB lnew) c t matched imIdx d =
      matchStep gtB c t matched imIdx d := by
  have hget : (addEmptyClass gtB lnew).get? imIdx =
      (gtB.get? imIdx).map (fun im => im ++ [(lnew, [])]) := by
    simp [addEmptyClass, List.get?_eq_getElem?, List.getElem?_map]
  cases hgt : gtB.get? imIdx with
  | none =>
      have hL : (addEmptyClass gtB lnew).get? imIdx = none := by rw [hget, hgt]; rfl
      rw [matchStep, matchStep, hL, hgt]
  | some im =>
      have hL : (addEmptyClass gtB lnew).get? imIdx = some (im ++ [(lnew, [])]) := by
        rw [hget, hgt]
        rfl
      rw [matchStep, matchStep, hL, hgt]
      simp only [bind, Except.bind]
      rw [lookup?_append_fresh im lnew c [] (fun h => hne h.symm)]

theorem matchFold_addEmpty {c lnew : ℕ} (hne : c ≠ lnew) (gtB : List GtImg) (t : ℚ) :
    ∀ (dets : List (ℕ × Det)) (matched : List (List Bool)),
      matchFold (addEmptyClass gtB lnew) c t dets matched =
        matchFold gtB c t dets matched := by
  intro dets
  induction dets with
  | nil => intro _; rfl
  | cons p rest ih =>
      intro matched
      obtain ⟨imIdx, d⟩ := p
      rw [matchFold, matchFold, matchStep_addEmpty hne gtB t matched imIdx d]
      cases hstep : matchStep gtB c t matched imIdx d with
      | error e => rfl
      | ok fm =>
          simp only [bind, Except.bind]
          rw [ih fm.2]

theorem classEval_addEmpty_ne {detB : List DetImg} {gtB : List GtImg} {t : ℚ}
    {method : String} {c lnew : ℕ} (hne : c ≠ lnew) :
    classEval detB (addEmptyClass gtB lnew) c t method = classEval detB gtB c t method := by
  rw [classEval, classEval, classFlags, classFlags, initMatched_addEmpty hne,
    numGtsE_addEmpty hne]
  cases hinit : initMatched c gtB with
  | error e => rfl
  | ok m0 =>
      simp only [bind, Except.bind]
      rw [matchFold_addEmpty hne gtB t (sortedClsDets detB c) m0]

theorem numGtsTotal_addEmpty_ne {gtB : List GtImg} {c lnew : ℕ} (hne : c ≠ lnew) :
    numGtsTotal (addEmptyClass gtB lnew) c = numGtsTotal gtB c := by
  rw [numGtsTotal, numGtsTotal, addEmptyClass, List.map_map]
  congr 1
  apply List.map_congr_left
  intro im _
  simp only [Function.comp]
  rw [lookup?_append_fresh im lnew c [] (fun h => hne h.symm)]

theorem numGtsTotal_addEmpty_self {gtB : List GtImg} {lnew : ℕ}
    (hfresh : ∀ im ∈ gtB, lookup? im lnew = none) :
    numGtsTotal (addEmptyClass gtB lnew) lnew = 0 := by
  rw [numGtsTotal]
  apply List.sum_eq_zero
  intro x hx
  obtain ⟨im', him', rfl⟩ := List.mem_map.1 hx
  obtain ⟨im, him, rfl⟩ := List.mem_map.1 him'
  rw [lookup?_append_self im lnew [] (hfresh im him)]
  rfl

theorem sortedLabels_addEmpty {gtB : List GtImg} {lnew : ℕ}
    (hfresh : ∀ im ∈ gtB, lookup? im lnew = none) (hgtB : gtB ≠ []) :
    (sortedLabels (addEmptyClass gtB lnew)).Perm (lnew :: sortedLabels gtB) := by
  have hKmem : ∀ x : ℕ, (x ∈ allGtLabels (addEmptyClass gtB lnew)) ↔
      (x = lnew ∨ x ∈ allGtLabels gtB) := by
    intro x
    rw [allGtLabels, allGtLabels, List.mem_dedup, List.mem_dedup, List.mem_flatten,
      List.mem_flatten, addEmptyClass, List.map_map]
    constructor
    · rintro ⟨sub, hsub, hx⟩
      obtain ⟨im, him, rfl⟩ := List.mem_map.1 hsub
      simp only [Function.comp, List.map_append] at hx
      rcases List.mem_append.1 hx with hx | hx
      · exact Or.inr ⟨im.map Prod.fst, List.mem_map_of_mem _ him, hx⟩
      · simp at hx
        exact Or.inl hx
    · rintro (rfl | ⟨sub, hsub, hx⟩)
      · obtain ⟨im, him⟩ := List.exists_mem_of_ne_nil gtB hgtB
        refine ⟨(im ++ [(x, [])]).map Prod.fst, ?_, ?_⟩
        · rw [List.mem_map]
          exact ⟨im, him, rfl⟩
        · simp
      · obtain ⟨im, him, rfl⟩ := List.mem_map.1 hsub
        refine ⟨(im ++ [(lnew, [])]).map Prod.fst, ?_, ?_⟩
        · rw [List.mem_map]
          exact ⟨im, him, rfl⟩
        · simp only [List.map_append, List.mem_append]
          exact Or.inl hx
  have hnotin : lnew ∉ allGtLabels gtB := by
    intro hmem
    rw [allGtLabels, List.mem_dedup, List.mem_flatten] at hmem
    obtain ⟨sub, hsub, hx⟩ := hmem
    obtain ⟨im, him, rfl⟩ := List.mem_map.1 hsub
    exact ((lookup?_eq_none_iff im lnew).1 (hfresh im him)) hx
  have hperm2 : (allGtLabels (addEmptyClass gtB lnew)).Perm (lnew :: allGtLabels gtB) := by
    apply List.perm_of_nodup_nodup_toFinset_eq
    · exact List.nodup_dedup _
    · exact List.nodup_cons.2 ⟨hnotin, List.nodup_dedup _⟩
    · ext x
      simp only [List.mem_toFinset, List.mem_cons]
      rw [hKmem x]
  exact ((List.perm_insertionSort _ _).trans hperm2).trans
    (List.Perm.cons lnew (List.perm_insertionSort _ _).symm)

/-- **C3.** On a successful run, `mean_ap` is the unweighted arithmetic mean
of the APs of exactly the universe classes with positive total ground
truth; and adding a fresh class as a key with an empty box list to every
image's ground-truth dict yields another successful run with the same
`mean_ap`.  (`detB.length ≤ gtB.length` is the data model's index
alignment; `-1 < t` excludes the sentinel corner of C1.) -/
theorem compute_map_mean_and_fresh_class (detB : List DetImg) (gtB : List GtImg) (t : ℚ)
    (method : String) (lnew : ℕ) (m : ℚ) (all : List (ℕ × Option ℚ))
    (hok : compute_map detB gtB t method = Except.ok (m, all))
    (hlen : detB.length ≤ gtB.length)
    (ht : (-1 : ℚ) < t)
    (hfresh : ∀ im ∈ gtB, lookup? im lnew = none) :
    m = ((meanClasses gtB).map (classAPD detB gtB t method)).sum /
        ((meanClasses gtB).length : ℚ) ∧
    ∃ all', compute_map detB (addEmptyClass gtB lnew) t method = Except.ok (m, all') := by
  refine ⟨(compute_map_mean_aux hok).2, ?_⟩
  obtain ⟨res, hres, hne, hm, _⟩ := compute_map_ok_dest hok
  have hallok := (processLabels_ok_iff detB gtB t method _).1 ⟨res, hres⟩
  have hlabne : sortedLabels gtB ≠ [] := by
    intro hcon
    rw [hcon] at hres
    simp only [processLabels] at hres
    injection hres with hres
    rw [← hres] at hne
    exact hne rfl
  obtain ⟨l0, ls0, hlab⟩ := List.exists_cons_of_ne_nil hlabne
  have hmethod : method = "area" ∨ method = "interp" := by
    obtain ⟨an, han⟩ := hallok l0 (by rw [hlab]; exact List.mem_cons_self _ _)
    exact (classEval_ok_dest han).2.2.2
  have hgtBne : gtB ≠ [] := by
    intro hcon
    subst hcon
    exact hlabne rfl
  have hlen' : detB.length ≤ (addEmptyClass gtB lnew).length := by
    simpa [addEmptyClass] using hlen
  have hperm := sortedLabels_addEmpty hfresh hgtBne
  have hkeys' : ∀ im' ∈ addEmptyClass gtB lnew, (lookup? im' lnew).isSome = true := by
    intro im' him'
    obtain ⟨im, him, rfl⟩ := List.mem_map.1 him'
    rw [lookup?_append_self im lnew [] (hfresh im him)]
    rfl
  have hallok' : ∀ c ∈ sortedLabels (addEmptyClass gtB lnew),
      ∃ an, classEval detB (addEmptyClass gtB lnew) c t method = Except.ok an := by
    intro c hc
    rcases List.mem_cons.1 (hperm.mem_iff.1 hc) with rfl | hc'
    · exact classEval_ok_of detB _ c t method hmethod ht hkeys' hlen'
    · have hne2 : c ≠ lnew := sortedLabels_mem_ne_fresh hfresh c hc'
      rw [classEval_addEmpty_ne hne2]
      exact hallok c hc'
  obtain ⟨res', hres'⟩ := (processLabels_ok_iff detB _ t method _).2 hallok'
  have hfst' := processLabels_fst detB _ t method _ res' hres'
  have hfst := processLabels_fst detB gtB t method _ res hres
  have hentry_lnew : apEntry detB (addEmptyClass gtB lnew) t method lnew = none := by
    obtain ⟨an, han⟩ := hallok' lnew (hperm.mem_iff.2 (List.mem_cons_self _ _))
    have h2 := (classEval_ok_dest han).2.2.1
    have hval : apEntry detB (addEmptyClass gtB lnew) t method lnew =
        if 0 < an.2 then some an.1 else none := by
      rw [apEntry, han]
    rw [hval, if_neg]
    rw [h2, numGtsTotal_addEmpty_self hfresh]
    exact lt_irrefl 0
  have hapsperm : res'.1.Perm res.1 := by
    rw [hfst', hfst]
    have h1 : (List.filterMap (apEntry detB (addEmptyClass gtB lnew) t method)
        (sortedLabels (addEmptyClass gtB lnew))).Perm
        (List.filterMap (apEntry detB (addEmptyClass gtB lnew) t method)
          (lnew :: sortedLabels gtB)) := hperm.filterMap _
    have h2 : List.filterMap (apEntry detB (addEmptyClass gtB lnew) t method)
        (lnew :: sortedLabels gtB) =
        List.filterMap (apEntry detB gtB t method) (sortedLabels gtB) := by
      rw [List.filterMap_cons, hentry_lnew]
      apply List.filterMap_congr
      intro c hc
      simp only [apEntry, classEval_addEmpty_ne (sortedLabels_mem_ne_fresh hfresh c hc)]
    rw [h2] at h1
    exact h1
  have hsum : res'.1.sum = res.1.sum := hapsperm.sum_eq
  have hlen2 : res'.1.length = res.1.length := hapsperm.length_eq
  have hne' : ¬ (res'.1.length = 0) := by
    rw [hlen2]
    intro hc
    exact hne (List.length_eq_zero.1 hc)
  refine ⟨res'.2, ?_⟩
  rw [compute_map, hres']
  simp only [bind, Except.bind]
  rw [if_neg hne', hsum, hlen2, ← hm]

/-! ### The contested-box scenario -/

theorem clsDets_pair (l : ℕ) (d1 d2 : Det) :
    clsDets [[(l, [d1, d2])]] l = [(0, d1), (0, d2)] := by
  simp [clsDets, lookup?]

theorem initMatched_single (l : ℕ) (b : Box) :
    initMatched l [[(l, [b])]] = Except.ok [[false]] := by
  simp [initMatched, lookup?, bind, Except.bind]

/-- **C5.** One ground-truth box, two detections both overlapping it at
least at the threshold: the detections are processed in descending-score
order with ties resolved to the earlier detection in input order, the
first-processed detection is TP and the other is FP. -/
theorem compute_map_two_dets_one_gt (l : ℕ) (b : Box) (d1 d2 : Det) (t : ℚ)
    (h1 : t ≤ get_iou d1.box b) (h2 : t ≤ get_iou d2.box b) :
    (d2.score ≤ d1.score →
      sortedClsDets [[(l, [d1, d2])]] l = [(0, d1), (0, d2)] ∧
      classFlags [[(l, [d1, d2])]] [[(l, [b])]] l t = Except.ok [true, false]) ∧
    (d1.score < d2.score →
      sortedClsDets [[(l, [d1, d2])]] l = [(0, d2), (0, d1)] ∧
      classFlags [[(l, [d1, d2])]] [[(l, [b])]] l t = Except.ok [true, false]) := by
  have hkey : ∀ dX dY : Det, t ≤ get_iou dX.box b → t ≤ get_iou dY.box b →
      matchFold [[(l, [b])]] l t [(0, dX), (0, dY)] [[false]] = Except.ok [true, false] := by
    intro dX dY hX hY
    have hiX : bestGtAux dX.box 0 (-1, -1) [b] = (get_iou dX.box b, ((0 : ℕ) : Int)) := by
      simp [bestGtAux, lt_of_lt_of_le (by norm_num : (-1 : ℚ) < 0) (get_iou_nonneg dX.box b)]
    have hiY : bestGtAux dY.box 0 (-1, -1) [b] = (get_iou dY.box b, ((0 : ℕ) : Int)) := by
      simp [bestGtAux, lt_of_lt_of_le (by norm_num : (-1 : ℚ) < 0) (get_iou_nonneg dY.box b)]
    have hstep1 : matchStep [[(l, [b])]] l t [[false]] 0 dX = Except.ok (true, [[true]]) := by
      simp [matchStep, lookup?, bind, Except.bind, hiX, not_lt.2 hX, pyIdx, pySet]
    have hstep2 : matchStep [[(l, [b])]] l t [[true]] 0 dY = Except.ok (false, [[true]]) := by
      simp [matchStep, lookup?, bind, Except.bind, hiY, not_lt.2 hY, pyIdx]
    simp [matchFold, hstep1, hstep2, bind, Except.bind]
  constructor
  · intro hsc
    have hsort : sortedClsDets [[(l, [d1, d2])]] l = [(0, d1), (0, d2)] := by
      simp [sortedClsDets, clsDets_pair, List.insertionSort, List.orderedInsert, detBefore, hsc]
    refine ⟨hsort, ?_⟩
    rw [classFlags, initMatched_single, hsort]
    simpa [bind, Except.bind] using hkey d1 d2 h1 h2
  · intro hsc
    have hsort : sortedClsDets [[(l, [d1, d2])]] l = [(0, d2), (0, d1)] := by
      simp [sortedClsDets, clsDets_pair, List.insertionSort, List.orderedInsert, detBefore,
        not_le.2 hsc]
    refine ⟨hsort, ?_⟩
    rw [classFlags, initMatched_single, hsort]
    simpa [bind, Except.bind] using hkey d2 d1 h2 h1

/-- **C2 (evidence of the code bug).** With no image at all, and likewise
when every universe class has zero ground-truth boxes, `compute_map`
reaches `sum(aps) / len(aps)` with an empty `aps` and crashes with an
unguarded `ZeroDivisionError` instead of reporting a guarded
empty-result error. -/
theorem compute_map_empty_mean_crash :
    compute_map [] [] (1/2) "area" = Except.error PyErr.zeroDivisionError ∧
    compute_map [[]] [[(0, [])]] (1/2) "area" = Except.error PyErr.zeroDivisionError := by
  constructor
  · rfl
  · rfl

/-! ### Witnesses -/

/-- Witness for `compute_map_bad_method_fails`. -/
theorem compute_map_bad_method_fails_witness :
    compute_map [] [[(0, [(⟨0, 0, 1, 1⟩ : Box)])]] (1/2) "other" =
      Except.error PyErr.valueError :=
  (compute_map_bad_method_fails [] [[(0, [⟨0, 0, 1, 1⟩])]] (1/2) "other"
    (by decide) (by decide)).2 0 [] rfl ⟨[], rfl⟩

/-- Witness for `compute_map_missing_key`. -/
theorem compute_map_missing_key_witness :
    ∃ l', compute_map [] [[(0, [(⟨0, 0, 1, 1⟩ : Box)]), (1, [⟨0, 0, 1, 1⟩])],
      [(0, [⟨0, 0, 1, 1⟩])]] (1/2) "area" = Except.error (PyErr.keyError l') :=
  (compute_map_missing_key [] [[(0, [⟨0, 0, 1, 1⟩]), (1, [⟨0, 0, 1, 1⟩])],
      [(0, [⟨0, 0, 1, 1⟩])]] (1/2) "area").2
    (Or.inl rfl) (by norm_num) (by norm_num)
    ⟨1, by decide, [(0, [⟨0, 0, 1, 1⟩])], by simp, rfl⟩

/-- Witness for `compute_map_no_dets_ap_zero`. -/
theorem compute_map_no_dets_ap_zero_witness :
    lookup? [((0 : ℕ), some ((1 : ℚ))), (1, some 0)] 1 = some (some 0) := by
  have hok : compute_map [[(0, [⟨⟨0, 0, 10, 10⟩, 9/10⟩])]]
      [[(0, [(⟨0, 0, 10, 10⟩ : Box)]), (1, [⟨0, 0, 10, 10⟩])]] (1/2) "area" =
      Except.ok (1/2, [(0, some 1), (1, some 0)]) := by
    norm_num [compute_map, processLabels, sortedLabels, allGtLabels, classEval, classFlags,
      initMatched, numGtsE, sortedClsDets, clsDets, matchFold, matchStep, bestGtAux, pyIdx,
      pySet, lookup?, List.insertionSort, List.orderedInsert, bind, Except.bind, pure,
      Except.pure, apArea, envelope, adjSum, cumsum, cumsumFrom, epsF32, epsUnion, get_iou,
      List.dedup, List.enum, List.enumFrom, detBefore]
  exact compute_map_no_dets_ap_zero _ _ (1/2) "area" (1/2) [(0, some 1), (1, some 0)] 1
    hok (by decide) rfl (by decide)

/-- Witness for `compute_map_zero_gt_nan_excluded`. -/
theorem compute_map_zero_gt_nan_excluded_witness :
    lookup? [((0 : ℕ), some ((1 : ℚ))), (1, none)] 1 = some none ∧
    1 ∉ meanClasses [[(0, [(⟨0, 0, 10, 10⟩ : Box)]), (1, ([] : List Box))]] ∧
    (1 : ℚ) = ((meanClasses [[(0, [(⟨0, 0, 10, 10⟩ : Box)]), (1, ([] : List Box))]]).map
        (classAPD [[(1, [⟨⟨0, 0, 10, 10⟩, 9/10⟩]), (0, [⟨⟨0, 0, 10, 10⟩, 9/10⟩])]]
          [[(0, [⟨0, 0, 10, 10⟩]), (1, [])]] (1/2) "area")).sum /
      ((meanClasses [[(0, [(⟨0, 0, 10, 10⟩ : Box)]), (1, ([] : List Box))]]).length : ℚ) := by
  have hok : compute_map [[(1, [⟨⟨0, 0, 10, 10⟩, 9/10⟩]), (0, [⟨⟨0, 0, 10, 10⟩, 9/10⟩])]]
      [[(0, [(⟨0, 0, 10, 10⟩ : Box)]), (1, [])]] (1/2) "area" =
      Except.ok (1, [(0, some 1), (1, none)]) := by
    norm_num [compute_map, processLabels, sortedLabels, allGtLabels, classEval, classFlags,
      initMatched, numGtsE, sortedClsDets, clsDets, matchFold, matchStep, bestGtAux, pyIdx,
      pySet, lookup?, List.insertionSort, List.orderedInsert, bind, Except.bind, pure,
      Except.pure, apArea, envelope, adjSum, cumsum, cumsumFrom, epsF32, epsUnion, get_iou,
      List.dedup, List.enum, List.enumFrom, detBefore]
  exact compute_map_zero_gt_nan_excluded _ _ (1/2) "area" 1 [(0, some 1), (1, none)] 1
    hok (by decide) (by decide) (by decide)

/-- Witness for `compute_map_mean_and_fresh_class`. -/
theorem compute_map_mean_and_fresh_class_witness :
    ((1 : ℚ) = ((meanClasses [[(0, [(⟨0, 0, 10, 10⟩ : Box)])]]).map
        (classAPD [[(0, [⟨⟨0, 0, 10, 10⟩, 9/10⟩])]] [[(0, [⟨0, 0, 10, 10⟩])]]
          (1/2) "area")).sum /
      ((meanClasses [[(0, [(⟨0, 0, 10, 10⟩ : Box)])]]).length : ℚ)) ∧
    ∃ all', compute_map [[(0, [⟨⟨0, 0, 10, 10⟩, 9/10⟩])]]
      (addEmptyClass [[(0, [(⟨0, 0, 10, 10⟩ : Box)])]] 5) (1/2) "area" =
      Except.ok (1, all') := by
  have hok : compute_map [[(0, [⟨⟨0, 0, 10, 10⟩, 9/10⟩])]]
      [[(0, [(⟨0, 0, 10, 10⟩ : Box)])]] (1/2) "area" = Except.ok (1, [(0, some 1)]) := by
    norm_num [compute_map, processLabels, sortedLabels, allGtLabels, classEval, classFlags,
      initMatched, numGtsE, sortedClsDets, clsDets, matchFold, matchStep, bestGtAux, pyIdx,
      pySet, lookup?, List.insertionSort, List.orderedInsert, bind, Except.bind, pure,
      Except.pure, apArea, envelope, adjSum, cumsum, cumsumFrom, epsF32, epsUnion, get_iou,
      List.dedup, List.enum, List.enumFrom, detBefore]
  exact compute_map_mean_and_fresh_class _ _ (1/2) "area" 5 1 [(0, some 1)]
    hok (by norm_num) (by norm_num)
    (by intro im him; rw [List.mem_singleton] at him; subst him; rfl)

/-- Witness for `compute_map_two_dets_one_gt`. -/
theorem compute_map_two_dets_one_gt_witness :
    sortedClsDets [[(7, [⟨⟨0, 0, 10, 10⟩, 9/10⟩, ⟨⟨0, 0, 10, 10⟩, 1/2⟩])]] 7 =
      [(0, ⟨⟨0, 0, 10, 10⟩, 9/10⟩), (0, ⟨⟨0, 0, 10, 10⟩, 1/2⟩)] ∧
    classFlags [[(7, [⟨⟨0, 0, 10, 10⟩, 9/10⟩, ⟨⟨0, 0, 10, 10⟩, 1/2⟩])]]
      [[(7, [⟨0, 0, 10, 10⟩])]] 7 (1/2) = Except.ok [true, false] :=
  (compute_map_two_dets_one_gt 7 ⟨0, 0, 10, 10⟩ ⟨⟨0, 0, 10, 10⟩, 9/10⟩
    ⟨⟨0, 0, 10, 10⟩, 1/2⟩ (1/2)
    (by norm_num [get_iou, epsUnion]) (by norm_num [get_iou, epsUnion])).1
    (by norm_num)

/-- **C3 counterexample.**  With `iou_threshold = -2`, the original input
evaluates to `mean_ap = 0`, but after adding class `5` as a key with an
empty box list the run crashes: the class-`5` detection faces an image
with no class-`5` ground truth, the sentinel best IoU `-1` is not below
the threshold, and `gt_matched[0][-1]` on the empty row raises
`IndexError`.  Hence adding a zero-ground-truth class does not always
leave `mean_ap` unchanged. -/
theorem compute_map_fresh_class_cex :
    compute_map [[(5, [⟨⟨0, 0, 1, 1⟩, 1⟩])]] [[(0, [(⟨0, 0, 1, 1⟩ : Box)])]] (-2) "area" =
      Except.ok (0, [(0, some 0)]) ∧
    (∀ im ∈ [[((0 : ℕ), [(⟨0, 0, 1, 1⟩ : Box)])]], lookup? im 5 = none) ∧
    compute_map [[(5, [⟨⟨0, 0, 1, 1⟩, 1⟩])]]
      (addEmptyClass [[(0, [(⟨0, 0, 1, 1⟩ : Box)])]] 5) (-2) "area" =
      Except.error PyErr.indexError := by
  refine ⟨?_, ?_, ?_⟩
  · norm_num [compute_map, processLabels, sortedLabels, allGtLabels, classEval, classFlags,
      initMatched, numGtsE, sortedClsDets, clsDets, matchFold, matchStep, bestGtAux, pyIdx,
      pySet, lookup?, List.insertionSort, List.orderedInsert, bind, Except.bind, pure,
      Except.pure, apArea, envelope, adjSum, cumsum, cumsumFrom, epsF32, epsUnion, get_iou,
      List.dedup, List.enum, List.enumFrom, detBefore]
  · intro im him
    rw [List.mem_singleton] at him
    subst him
    rfl
  · norm_num [compute_map, processLabels, sortedLabels, allGtLabels, classEval, classFlags,
      initMatched, numGtsE, sortedClsDets, clsDets, matchFold, matchStep, bestGtAux, pyIdx,
      pySet, lookup?, List.insertionSort, List.orderedInsert, bind, Except.bind, pure,
      Except.pure, apArea, envelope, adjSum, cumsum, cumsumFrom, epsF32, epsUnion, get_iou,
      List.dedup, List.enum, List.enumFrom, detBefore, addEmptyClass]

/-! ### IoU claims -/

/-- **C9.** If either box is degenerate (`x2 < x1` or `y2 < y1`), `get_iou`
returns exactly `0` (the total Lean function never fails, and the source
reaches no division: the intersection test short-circuits). -/
theorem get_iou_degenerate_zero (det gt : Box)
    (h : det.x2 < det.x1 ∨ det.y2 < det.y1 ∨ gt.x2 < gt.x1 ∨ gt.y2 < gt.y1) :
    get_iou det gt = 0 := by
  have hc : min det.x2 gt.x2 < max det.x1 gt.x1 ∨ min det.y2 gt.y2 < max det.y1 gt.y1 := by
    rcases h with h | h | h | h
    · exact Or.inl (lt_of_le_of_lt (min_le_left _ _) (lt_of_lt_of_le h (le_max_left _ _)))
    · exact Or.inr (lt_of_le_of_lt (min_le_left _ _) (lt_of_lt_of_le h (le_max_left _ _)))
    · exact Or.inl (lt_of_le_of_lt (min_le_right _ _) (lt_of_lt_of_le h (le_max_right _ _)))
    · exact Or.inr (lt_of_le_of_lt (min_le_right _ _) (lt_of_lt_of_le h (le_max_right _ _)))
  simp only [get_iou]
  rw [if_pos hc]

/-- Witness for `get_iou_degenerate_zero`. -/
theorem get_iou_degenerate_zero_witness :
    get_iou ⟨1, 1, 0, 0⟩ ⟨0, 0, 2, 2⟩ = 0 :=
  get_iou_degenerate_zero ⟨1, 1, 0, 0⟩ ⟨0, 0, 2, 2⟩ (Or.inl (by norm_num))

/-- **C8 counterexample.**  For the zero-area box `(0,0,0,0)`,
`get_iou b b = 0 / (0 + 1E-6) = 0`, which is not within any small
tolerance of `1`. -/
theorem get_iou_self_claim_cex :
    ¬ |get_iou ⟨0, 0, 0, 0⟩ ⟨0, 0, 0, 0⟩ - 1| ≤ 1 / 1000 := by
  norm_num [get_iou, epsUnion]

/-- **C8 (amended).**  For a box with non-negative extents and area at
least `10⁻³`, the IoU of the box with itself is within `10⁻³` of `1`
(the defect is the `1E-6` union padding, noticeable only for tiny or
degenerate boxes). -/
theorem get_iou_self_near_one (b : Box) (hx : b.x1 ≤ b.x2) (hy : b.y1 ≤ b.y2)
    (hA : 1 / 1000 ≤ (b.x2 - b.x1) * (b.y2 - b.y1)) :
    |get_iou b b - 1| ≤ 1 / 1000 := by
  set A := (b.x2 - b.x1) * (b.y2 - b.y1) with hAdef
  have hval : get_iou b b = A / (A + epsUnion) := by
    simp only [get_iou, max_self, min_self]
    rw [if_neg (not_or.2 ⟨not_lt.2 hx, not_lt.2 hy⟩), ← hAdef]
    ring_nf
  have hApos : 0 < A := lt_of_lt_of_le (by norm_num) hA
  have hepos : (0 : ℚ) < epsUnion := by norm_num [epsUnion]
  have hpos : 0 < A + epsUnion := by linarith
  have key : A / (A + epsUnion) - 1 = -(epsUnion / (A + epsUnion)) := by
    field_simp
  rw [hval, key, abs_neg, abs_of_nonneg (div_nonneg hepos.le hpos.le), div_le_iff₀ hpos]
  simp only [epsUnion]
  linarith

/-- Witness for `get_iou_self_near_one`. -/
theorem get_iou_self_near_one_witness :
    |get_iou ⟨0, 0, 1, 1⟩ ⟨0, 0, 1, 1⟩ - 1| ≤ 1 / 1000 :=
  get_iou_self_near_one ⟨0, 0, 1, 1⟩ (by norm_num) (by norm_num) (by norm_num)

end Infer
